import Mathlib

/-!
Verification development for the receipt-wallet repository.

The Go sources are shallowly embedded:

* byte strings (`[]byte`, `string`) become `List ℕ` with each element < 256
  where it matters;
* Go machine integers become `ℕ`/`ℤ` with explicit `% 2^w` at each Go
  conversion (`uint16(x)`, `uint32(x)`, `uint64(x)`);
* Go `float64` monetary amounts become `ℚ`; the `uint32(x*100)` conversion
  (truncation toward zero) becomes `(q * 100).floor.toNat`;
* fallible Go functions return `Option`/`Except` with an error enum mirroring
  the distinct `fmt.Errorf` sites of the source.

All definitions are computable so that witnesses evaluate by `decide`.
-/

/-- Decidable equality of `Except` results (used to state and evaluate the
claims about fallible operations). -/
instance {ε α : Type} [DecidableEq ε] [DecidableEq α] : DecidableEq (Except ε α) :=
  fun a b =>
    match a, b with
    | .error e, .error f =>
      if h : e = f then .isTrue (by rw [h]) else .isFalse (by simp [h])
    | .error _, .ok _ => .isFalse (by simp)
    | .ok _, .error _ => .isFalse (by simp)
    | .ok x, .ok y =>
      if h : x = y then .isTrue (by rw [h]) else .isFalse (by simp [h])

namespace ReceiptWallet

/-! ## Byte-level primitives (encoding/binary, big-endian) -/

/-- Big-endian bytes of `x`, exactly `k` octets (the value is taken mod `256^k`,
matching Go's fixed-width `binary.Write`). -/
def bytesBE : ℕ → ℕ → List ℕ
  | 0, _ => []
  | k + 1, x => bytesBE k (x / 256) ++ [x % 256]

/-- Big-endian value of a byte list (`binary.Read` accumulation). -/
def beVal (l : List ℕ) : ℕ := l.foldl (fun a b => a * 256 + b) 0

/-- `binary.Write` of a `uint16` (big-endian). -/
def be2 (n : ℕ) : List ℕ := bytesBE 2 n

/-- `binary.Write` of a `uint32` (big-endian). -/
def be4 (n : ℕ) : List ℕ := bytesBE 4 n

/-- `binary.Write` of a `uint64` (big-endian). -/
def be8 (n : ℕ) : List ℕ := bytesBE 8 n

/-- `binary.Write` of a `uint8`. -/
def be1 (n : ℕ) : List ℕ := [n % 256]

/-- `binary.Read` of a big-endian `uint16` from a stream: `io.ReadFull`
semantics, failing unless two bytes are available. -/
def read2 : List ℕ → Option (ℕ × List ℕ)
  | a :: b :: r => some (a * 256 + b, r)
  | _ => none

/-- `binary.Read` of a big-endian `uint8`. -/
def read1 : List ℕ → Option (ℕ × List ℕ)
  | a :: r => some (a, r)
  | _ => none

/-- `binary.Read` of a big-endian `uint32`. -/
def read4 : List ℕ → Option (ℕ × List ℕ)
  | a :: b :: c :: d :: r => some (((a * 256 + b) * 256 + c) * 256 + d, r)
  | _ => none

/-- `binary.Read` of a big-endian `uint64`. -/
def read8 : List ℕ → Option (ℕ × List ℕ)
  | a :: b :: c :: d :: e :: f :: g :: h :: r =>
      some (((((((a * 256 + b) * 256 + c) * 256 + d) * 256 + e) * 256 + f)
        * 256 + g) * 256 + h, r)
  | _ => none

/-- `bytes.Reader.Read` into a buffer of `n` zero bytes, as used by
`DeserializeReceipt` for the length-prefixed strings: it fails only when the
reader is already at EOF; otherwise it copies `min n (length)` bytes and the
remainder of the buffer keeps its zero fill. -/
def goRead (n : ℕ) (bs : List ℕ) : Option (List ℕ × List ℕ) :=
  if bs = [] then none
  else some (bs.take n ++ List.replicate (n - bs.length) 0, bs.drop n)

/-! ## Decimal formatting and `fmt.Sscanf` parsing -/

/-- Decimal digit bytes of a positive number, ASCII, most significant first.
The first argument is recursion fuel (any bound on the digit count works). -/
def decDigits : ℕ → ℕ → List ℕ
  | 0, _ => []
  | _ + 1, 0 => []
  | f + 1, n + 1 => decDigits f ((n + 1) / 10) ++ [48 + (n + 1) % 10]

/-- ASCII decimal representation of a natural number (`fmt` `%d`). -/
def decRepr (n : ℕ) : List ℕ := if n = 0 then [48] else decDigits 40 n

/-- Zero-pad a digit string on the left to width `w` (`fmt` `%0wd`). -/
def padZero (w : ℕ) (l : List ℕ) : List ℕ := List.replicate (w - l.length) 48 ++ l

/-- `fmt.Sprintf` with `%04d`. -/
def fmt4 (n : ℕ) : List ℕ := padZero 4 (decRepr n)

/-- `fmt.Sprintf` with `%02d`. -/
def fmt2 (n : ℕ) : List ℕ := padZero 2 (decRepr n)

/-- `fmt.Sprintf` with `%010d`. -/
def fmt10 (n : ℕ) : List ℕ := padZero 10 (decRepr n)

/-- ASCII decimal digit test. -/
def isDigit (b : ℕ) : Bool := 48 ≤ b && b ≤ 57

/-- Numeric value of a digit string (most significant first). -/
def digitsVal (l : List ℕ) : ℕ := l.foldl (fun a b => a * 10 + (b - 48)) 0

/-- Model of `fmt.Sscanf(s, "%d", &n)` into a `uint32`: the maximal leading
run of decimal digits is the token; no digits or a value ≥ 2^32 is an error.
(Go's `%d` would additionally skip leading white space and accept a sign;
every string this repository produces or that the theorems below touch is
sign-free and space-free, so that behaviour is not modelled.) -/
def sscanfU32 (s : List ℕ) : Option ℕ :=
  let t := s.takeWhile isDigit
  if t.isEmpty then none
  else if digitsVal t < 2 ^ 32 then some (digitsVal t) else none

/-! ## Gregorian date formatting

`DeserializeReceipt` rebuilds the transaction id with
`timestamp.Format("20060102")`.  We model the civil date of a nonnegative
Unix timestamp (fixed UTC offset) with the standard days-to-civil
conversion, rendered as `yyyymmdd`. -/

/-- Civil date `yyyymmdd` (ASCII bytes) of a nonnegative Unix timestamp,
modelling `time.Unix(ts, 0).Format("20060102")` at UTC. -/
def fmtDate (ts : ℕ) : List ℕ :=
  let z := ts / 86400 + 719468
  let era := z / 146097
  let doe := z % 146097
  let yoe := (doe - doe / 1460 + doe / 36524 - doe / 146096) / 365
  let y := yoe + era * 400
  let doy := doe - (365 * yoe + yoe / 4 - yoe / 100)
  let mp := (5 * doy + 2) / 153
  let d := doy - (153 * mp + 2) / 5 + 1
  let m := if mp < 10 then mp + 3 else mp - 9
  let yy := if m ≤ 2 then y + 1 else y
  padZero 4 (decRepr yy) ++ fmt2 m ++ fmt2 d

/-- `Format("20060102")` of an `int64` Unix timestamp; only nonnegative
timestamps are produced or decoded by the modelled receipts. -/
def fmtDateZ (ts : ℤ) : List ℕ := fmtDate ts.toNat

/-! ## Monetary amounts

Go stores amounts as `float64` lira and converts with `uint32(x * 100)`
(truncation toward zero).  Amounts are modelled as exact rationals. -/

/-- `uint32(x * 100)`: lira to kuruş, truncating. -/
def minorOf (q : ℚ) : ℕ := (⌊q * 100⌋).toNat

/-- `float64(k) / 100.0`: kuruş to lira. -/
def fromMinor (k : ℕ) : ℚ := (k : ℚ) / 100

/-! ## The receipt data model (internal/models/receipt.go) -/

/-- `models.Item` as the binary codec's snapshot declares it: category id,
quantity, unit price, total price, tax rate. -/
structure Item where
  kisimID : ℤ
  quantity : ℤ
  unitPrice : ℚ
  totalPrice : ℚ
  taxRate : ℤ
deriving DecidableEq

/-- `models.TaxDetail`. -/
structure TaxDetail where
  taxableAmount : ℚ
  taxAmount : ℚ
deriving DecidableEq

/-- `models.TaxBreakdown`. -/
structure TaxBreakdown where
  tax10Percent : TaxDetail
  tax20Percent : TaxDetail
  totalTax : ℚ
deriving DecidableEq

/-- `models.Receipt`; the timestamp is its Unix-seconds value (the codec
serialises to the second). -/
structure Receipt where
  zReportNumber : List ℕ
  transactionID : List ℕ
  timestamp : ℤ
  storeVKN : List ℕ
  storeName : List ℕ
  storeAddress : List ℕ
  items : List Item
  taxBreakdown : TaxBreakdown
  totalAmount : ℚ
  paymentMethod : List ℕ
  receiptSerial : List ℕ
deriving DecidableEq

/-! ## Binary receipt codec (internal/binary/receipt.go) -/

/-- `MagicBytes` = 0x5452. -/
def magicBytes : ℕ := 0x5452

/-- `FormatVersion` = 0x01. -/
def formatVersion : ℕ := 0x01

/-- `Reserved` = 0x00. -/
def reservedByte : ℕ := 0x00

/-- `SignatureSize` = 64. -/
def signatureSize : ℕ := 64

/-- `parseZReportNumber`: strips the `Z` prefix and scans the number. -/
def parseZReportNumber (s : List ℕ) : Option ℕ :=
  if 2 ≤ s.length ∧ s.headI = 90 then sscanfU32 s.tail else none

/-- `parseTransactionID`: needs `TX` + at least 9 further bytes and scans the
number after position 10 (the eight date characters are never inspected). -/
def parseTransactionID (s : List ℕ) : Option ℕ :=
  if 11 ≤ s.length ∧ s.take 2 = [84, 88] then sscanfU32 (s.drop 10) else none

/-- `parseVKN`: scans the whole string as a number. -/
def parseVKN (s : List ℕ) : Option ℕ := sscanfU32 s

/-- `parseReceiptSerial`: strips the `F` prefix and scans the number. -/
def parseReceiptSerial (s : List ℕ) : Option ℕ :=
  if 2 ≤ s.length ∧ s.headI = 70 then sscanfU32 s.tail else none

/-- `uint64(timestamp.Unix())`. -/
def toU64 (t : ℤ) : ℕ := (t % (2 ^ 64 : ℤ)).toNat

/-- `time.Unix(int64(u), 0)` for `u : uint64`. -/
def toI64 (u : ℕ) : ℤ := if u < 2 ^ 63 then (u : ℤ) else (u : ℤ) - 2 ^ 64

/-- `serializeItem`. -/
def itemBytes (i : Item) : List ℕ :=
  be2 ((i.kisimID % 65536).toNat) ++ be2 ((i.quantity % 65536).toNat)
    ++ be4 (minorOf i.unitPrice) ++ be4 (minorOf i.totalPrice)
    ++ be1 ((i.taxRate % 256).toNat)

/-- The item loop of `SerializeReceipt`. -/
def itemsBytes : List Item → List ℕ
  | [] => []
  | i :: is => itemBytes i ++ itemsBytes is

/-- `serializeTaxBreakdown`. -/
def taxBytes (t : TaxBreakdown) : List ℕ :=
  be4 (minorOf t.tax10Percent.taxableAmount) ++ be4 (minorOf t.tax10Percent.taxAmount)
    ++ be4 (minorOf t.tax20Percent.taxableAmount) ++ be4 (minorOf t.tax20Percent.taxAmount)
    ++ be4 (minorOf t.totalTax)

/-- The fixed-layout part of `SerializeReceipt` up to and including the
receipt serial: header, timestamp, numeric ids, length-prefixed strings,
total amount. -/
def headerBytes (ts z tx vkn : ℕ) (name addr : List ℕ) (tot : ℕ)
    (pay : List ℕ) (ser : ℕ) : List ℕ :=
  be2 magicBytes ++ be1 formatVersion ++ be1 reservedByte ++ be8 ts
    ++ be4 z ++ be4 tx ++ be4 vkn
    ++ be4 name.length ++ name ++ be4 addr.length ++ addr
    ++ be4 tot ++ be4 pay.length ++ pay ++ be4 ser

/-- Serialization error sites of `SerializeReceipt` (each is a distinct
`fmt.Errorf` in the source). -/
inductive SErr where
  | badZReport
  | badTransactionID
  | badVKN
  | badSerial
deriving DecidableEq

/-- `SerializeReceipt`: binary receipt format v1. -/
def serializeReceipt (r : Receipt) : Except SErr (List ℕ) :=
  match parseZReportNumber r.zReportNumber with
  | none => .error .badZReport
  | some z =>
    match parseTransactionID r.transactionID with
    | none => .error .badTransactionID
    | some tx =>
      match parseVKN r.storeVKN with
      | none => .error .badVKN
      | some vkn =>
        match parseReceiptSerial r.receiptSerial with
        | none => .error .badSerial
        | some ser =>
          .ok (headerBytes (toU64 r.timestamp) z tx vkn r.storeName
                r.storeAddress (minorOf r.totalAmount) r.paymentMethod ser
              ++ be2 r.items.length ++ itemsBytes r.items
              ++ taxBytes r.taxBreakdown)

/-- Deserialization error sites of `DeserializeReceipt`, one constructor per
distinct validation failure of the source ("data too short", "invalid magic
bytes", "unsupported format version", "invalid reserved byte", a read
failure of a fixed field, "failed to deserialize item i", tax-breakdown
read failure). -/
inductive DErr where
  | tooShort
  | badMagic
  | badVersion
  | badReserved
  | fieldFail
  | itemFail
  | taxFail
deriving DecidableEq

/-- Turn an optional read into an `Except` with the given error site. -/
def rstep {α : Type} (e : DErr) (o : Option α) : Except DErr α :=
  match o with
  | none => .error e
  | some a => .ok a

/-- `deserializeItem`. -/
def readItem (s : List ℕ) : Option (Item × List ℕ) := do
  let (k, s) ← read2 s
  let (q, s) ← read2 s
  let (u, s) ← read4 s
  let (t, s) ← read4 s
  let (r, s) ← read1 s
  pure (⟨(k : ℤ), (q : ℤ), fromMinor u, fromMinor t, (r : ℤ)⟩, s)

/-- The item loop of `DeserializeReceipt`. -/
def readItems : ℕ → List ℕ → Except DErr (List Item × List ℕ)
  | 0, s => .ok ([], s)
  | c + 1, s =>
    match readItem s with
    | none => .error .itemFail
    | some (i, s) =>
      match readItems c s with
      | .error e => .error e
      | .ok (is, s) => .ok (i :: is, s)

/-- `deserializeTaxBreakdown`. -/
def readTax (s : List ℕ) : Option (TaxBreakdown × List ℕ) := do
  let (b10, s) ← read4 s
  let (a10, s) ← read4 s
  let (b20, s) ← read4 s
  let (a20, s) ← read4 s
  let (tt, s) ← read4 s
  pure (⟨⟨fromMinor b10, fromMinor a10⟩, ⟨fromMinor b20, fromMinor a20⟩, fromMinor tt⟩, s)

/-- `DeserializeReceipt`: validates magic, version and reserved byte, then
reads every field back; trailing bytes after the tax breakdown are not
inspected (as in the source). -/
def deserializeReceipt (d : List ℕ) : Except DErr Receipt :=
  if d.length < 4 then .error .tooShort
  else do
    let (magic, s) ← rstep .fieldFail (read2 d)
    if magic ≠ magicBytes then throw .badMagic
    let (ver, s) ← rstep .fieldFail (read1 s)
    if ver ≠ formatVersion then throw .badVersion
    let (res, s) ← rstep .fieldFail (read1 s)
    if res ≠ reservedByte then throw .badReserved
    let (ts, s) ← rstep .fieldFail (read8 s)
    let (z, s) ← rstep .fieldFail (read4 s)
    let (tx, s) ← rstep .fieldFail (read4 s)
    let (vkn, s) ← rstep .fieldFail (read4 s)
    let (nameLen, s) ← rstep .fieldFail (read4 s)
    let (name, s) ← rstep .fieldFail (goRead nameLen s)
    let (addrLen, s) ← rstep .fieldFail (read4 s)
    let (addr, s) ← rstep .fieldFail (goRead addrLen s)
    let (tot, s) ← rstep .fieldFail (read4 s)
    let (payLen, s) ← rstep .fieldFail (read4 s)
    let (pay, s) ← rstep .fieldFail (goRead payLen s)
    let (ser, s) ← rstep .fieldFail (read4 s)
    let (cnt, s) ← rstep .fieldFail (read2 s)
    let (items, s) ← readItems cnt s
    let (tb, _) ← rstep .taxFail (readTax s)
    pure
      { zReportNumber := 90 :: fmt4 z
        transactionID := [84, 88] ++ fmtDateZ (toI64 ts) ++ fmt4 tx
        timestamp := toI64 ts
        storeVKN := fmt10 vkn
        storeName := name
        storeAddress := addr
        items := items
        taxBreakdown := tb
        totalAmount := fromMinor tot
        paymentMethod := pay
        receiptSerial := 70 :: fmt4 ser }

/-- `CreateSignedReceipt`: the signed-receipt assembler. -/
def createSignedReceipt (binaryReceipt signature : List ℕ) : Option (List ℕ) :=
  if signature.length = signatureSize then some (binaryReceipt ++ signature)
  else none

/-! ## EC point codec (internal/binary/encoding.go)

`big.Int` values become `ℕ`/`ℤ`; the curve is carried as its prime modulus
`p` and constant `b` (the Go functions likewise take `curve` as a
parameter; the named curve instantiates `p` with the P-256 prime, which is
≡ 3 mod 4). -/

/-- The right-hand side `x³ - 3x + b mod p` of the curve equation, computed
in `big.Int` arithmetic (`Mod` is Euclidean, so the result is in `[0, p)`). -/
def curvePoly (p b x : ℕ) : ℕ :=
  (((x : ℤ) ^ 3 - 3 * (x : ℤ) + (b : ℤ)) % (p : ℤ)).toNat

/-- Modular exponentiation by squaring (first argument is fuel; `e + 1` is
always enough for exponent `e`). -/
def powMod : ℕ → ℕ → ℕ → ℕ → ℕ
  | 0, _, _, p => 1 % p
  | f + 1, a, e, p =>
    if e = 0 then 1 % p
    else
      let h := powMod f (a * a % p) (e / 2) p
      if e % 2 = 1 then a % p * h % p else h

/-- `big.Int.ModSqrt` for a prime `p ≡ 3 mod 4`: the candidate
`a^((p+1)/4) mod p` is a square root exactly when one exists, so the
post-check is equivalent to Go's Jacobi-symbol pre-check. -/
def modSqrt (p a : ℕ) : Option ℕ :=
  let r := powMod ((p + 1) / 4 + 1) a ((p + 1) / 4) p
  if r * r % p = a % p then some r else none

/-- `elliptic.Curve.IsOnCurve`: coordinates in range and satisfying the
curve equation. -/
def isOnCurve (p b x y : ℕ) : Bool :=
  decide (x < p) && decide (y < p) && decide (y * y % p = curvePoly p b x)

/-- `compressPoint`: 33 bytes, parity byte then the 32-byte big-endian
x-coordinate. -/
def compressPoint (x y : ℕ) : List ℕ :=
  (if y % 2 = 0 then 2 else 3) :: bytesBE 32 x

/-- `decompressPoint`: length and parity-byte checks, square root of the
curve polynomial, parity selection, and the final on-curve check. -/
def decompressPoint (p b : ℕ) (c : List ℕ) : Option (ℕ × ℕ) :=
  if c.length ≠ 33 ∨ (c.headI ≠ 2 ∧ c.headI ≠ 3) then none
  else
    let x := beVal (c.drop 1)
    match modSqrt p (curvePoly p b x) with
    | none => none
    | some y0 =>
      let y1 := if y0 % 2 ≠ c.headI % 2 then p - y0 else y0
      if isOnCurve p b x y1 then some (x, y1) else none

/-- `elliptic.Marshal`: 65-byte uncompressed point, marker byte 0x04 then
both 32-byte big-endian coordinates. -/
def marshalUncompressed (x y : ℕ) : List ℕ :=
  4 :: (bytesBE 32 x ++ bytesBE 32 y)

/-! ## Anonymous encryption layout (internal/crypto/crypto.go)

`encryptWithPublicKey` / `eciesEncrypt` steps 1–4 (ephemeral key
generation, ECDH, HKDF, AES-GCM construction) live in the Go standard
library and draw randomness; they are passed in as parameters: the
ephemeral public coordinates, the drawn nonce, the derived symmetric key
and the AEAD seal function.  The definition captures the source's own
work: marshalling the ephemeral key and assembling
`ephemeral_public_key || nonce || ciphertext`. -/

/-- Steps 5–8 of `encryptWithPublicKey`: `gcmSeal key nonce data` stands for
`aesGCM.Seal(nil, nonce, data, nil)`. -/
def encryptAssemble (gcmSeal : List ℕ → List ℕ → List ℕ → List ℕ)
    (ephX ephY : ℕ) (nonce derivedKey data : List ℕ) : List ℕ :=
  marshalUncompressed ephX ephY ++ nonce ++ gcmSeal derivedKey nonce data

/-! ## Anonymous receipt store (receipt-bank internal/storage, part_001) -/

/-- `models.Receipt` of the receipt bank: the stored entry. -/
structure StoredReceipt where
  ephemeralKey : List ℕ
  encryptedData : List ℕ
  receiptID : List ℕ
  webhookURL : List ℕ
  timestamp : ℤ
deriving DecidableEq

/-- The `receipts` map of `MemoryStorage`, modelled as an association list
with at most one entry per key (Go map insertion replaces). -/
abbrev MemStore : Type := List (List ℕ × StoredReceipt)

/-- Store error outcomes. -/
inductive StoreErr where
  | duplicateID
  | notFound
deriving DecidableEq

/-- Go map lookup `ms.receipts[key]`. -/
def msLookup (k : List ℕ) (m : MemStore) : Option StoredReceipt :=
  (m.find? fun e => decide (e.1 = k)).map (·.2)

/-- Go map `delete(ms.receipts, key)`. -/
def msErase (k : List ℕ) (m : MemStore) : MemStore :=
  m.filter fun e => decide (e.1 ≠ k)

/-- `MemoryStorage.Store`: rejects a duplicate `ReceiptID` (scanned over all
entries), else assigns `receipts[r.EphemeralKey] = r`, replacing any
previous entry under that key. -/
def msStore (v : StoredReceipt) (m : MemStore) : Except StoreErr MemStore :=
  if m.any (fun e => decide (e.2.receiptID = v.receiptID)) then .error .duplicateID
  else .ok ((v.ephemeralKey, v) :: msErase v.ephemeralKey m)

/-- `MemoryStorage.Retrieve`: returns and deletes the entry, or NotFound. -/
def msRetrieve (k : List ℕ) (m : MemStore) : Except StoreErr (StoredReceipt × MemStore) :=
  match msLookup k m with
  | none => .error .notFound
  | some v => .ok (v, msErase k m)

/-! ## Issuance orchestrator (internal/cashregister, part_010)

The register's snapshot of `models.Item` carries a `KisimName` (dropped by
the binary codec, whose own snapshot of the model has no such field) and
the register receipt is otherwise the codec receipt. -/

/-- `models.Item` as the cash register builds it (with `KisimName`). -/
structure RItem where
  kisimID : ℕ
  kisimName : List ℕ
  unitPrice : ℚ
  quantity : ℤ
  totalPrice : ℚ
  taxRate : ℤ
deriving DecidableEq

/-- The register-side receipt (codec receipt with named items). -/
structure RReceipt where
  zReportNumber : List ℕ
  transactionID : List ℕ
  timestamp : ℤ
  storeVKN : List ℕ
  storeName : List ℕ
  storeAddress : List ℕ
  items : List RItem
  taxBreakdown : TaxBreakdown
  totalAmount : ℚ
  paymentMethod : List ℕ
  receiptSerial : List ℕ
deriving DecidableEq

/-- Projection to the codec's `models.Item` (the codec snapshot has no
`KisimName`, so the name is not serialised). -/
def toCodecItem (i : RItem) : Item :=
  ⟨(i.kisimID : ℤ), i.quantity, i.unitPrice, i.totalPrice, i.taxRate⟩

/-- Projection to the codec receipt handed to `binary.SerializeReceipt`. -/
def toCodec (r : RReceipt) : Receipt :=
  ⟨r.zReportNumber, r.transactionID, r.timestamp, r.storeVKN, r.storeName,
   r.storeAddress, r.items.map toCodecItem, r.taxBreakdown, r.totalAmount,
   r.paymentMethod, r.receiptSerial⟩

/-- `interfaces.StoreInfo`. -/
structure StoreInfo where
  vkn : List ℕ
  name : List ℕ
  address : List ℕ
deriving DecidableEq

/-- `models.KisimInfo` (id is the lookup key). -/
structure KisimInfo where
  kname : List ℕ
  taxRate : ℤ
  presetPrice : ℚ
deriving DecidableEq

/-- The mutable fields of `CashRegister` (the service dependencies are
passed separately; `kisimLookup` is passed to `addItem`). -/
structure CRState where
  storeInfo : StoreInfo
  currentReceipt : Option RReceipt
  zReportCounter : ℕ
  receiptCounter : ℕ
deriving DecidableEq

/-- `HasActiveReceipt`. -/
def hasActiveReceipt (st : CRState) : Bool := st.currentReceipt.isSome

/-- `AddItem` / `SetPaymentMethod` error sites. -/
inductive AddErr where
  | noActiveReceipt
  | unknownKisim
deriving DecidableEq

/-- The merge-or-append loop of `AddItem`: the first line with the same
kisim id and the same unit price absorbs the quantity and has its total
recomputed; otherwise a new line is appended. -/
def mergeAdd (items : List RItem) (kisimID : ℕ) (info : KisimInfo)
    (unitPrice : ℚ) (quantity : ℤ) : List RItem :=
  match items with
  | [] => [⟨kisimID, info.kname, unitPrice, quantity, unitPrice * (quantity : ℚ),
            info.taxRate⟩]
  | i :: is =>
    if i.kisimID = kisimID ∧ i.unitPrice = unitPrice then
      { i with quantity := i.quantity + quantity,
               totalPrice := i.unitPrice * ((i.quantity + quantity : ℤ) : ℚ) } :: is
    else i :: mergeAdd is kisimID info unitPrice quantity

/-- `AddItem`: looks up the kisim, uses the custom unit price when positive,
then merges or appends. -/
def addItem (lookup : ℕ → Option KisimInfo) (st : CRState) (kisimID : ℕ)
    (quantity : ℤ) (customUnitPrice : ℚ) : Except AddErr CRState :=
  match st.currentReceipt with
  | none => .error .noActiveReceipt
  | some r =>
    match lookup kisimID with
    | none => .error .unknownKisim
    | some info =>
      let unitPrice := if 0 < customUnitPrice then customUnitPrice else info.presetPrice
      let r2 := { r with items := mergeAdd r.items kisimID info unitPrice quantity }
      .ok { st with currentReceipt := some r2 }

/-- The accumulation loop of `calculateTotals` (total, 10%-bucket base,
20%-bucket base). -/
def calcLoop (acc : ℚ × ℚ × ℚ) : List RItem → ℚ × ℚ × ℚ
  | [] => acc
  | i :: is =>
    let base := i.totalPrice / (1 + (i.taxRate : ℚ) / 100)
    calcLoop (acc.1 + i.totalPrice,
      (if i.taxRate = 10 then acc.2.1 + base else acc.2.1),
      (if i.taxRate = 20 then acc.2.2 + base else acc.2.2)) is

/-- `calculateTotals`: the derived tax breakdown and total amount. -/
def calcTotals (items : List RItem) : TaxBreakdown × ℚ :=
  let acc := calcLoop (0, 0, 0) items
  (⟨⟨acc.2.1, acc.2.1 * (0.10 : ℚ)⟩, ⟨acc.2.2, acc.2.2 * (0.20 : ℚ)⟩,
    acc.2.1 * (0.10 : ℚ) + acc.2.2 * (0.20 : ℚ)⟩, acc.1)

/-- `validateReceipt` (the nil check cannot fire in the model). -/
def validateOk (r : RReceipt) : Bool :=
  !r.items.isEmpty && !r.paymentMethod.isEmpty && decide (0 < r.totalAmount)

/-- Step 1 of `IssueCurrentReceipt` (also the body of
`FinalizeCurrentReceipt`): stamp metadata and computed totals. -/
def stampReceipt (st : CRState) (now : ℤ) (r : RReceipt) : RReceipt :=
  let r1 := { r with
    zReportNumber := 90 :: fmt4 st.zReportCounter
    transactionID := [84, 88] ++ fmtDateZ now ++ fmt4 st.receiptCounter
    timestamp := now
    storeVKN := st.storeInfo.vkn
    storeName := st.storeInfo.name
    storeAddress := st.storeInfo.address
    receiptSerial := 70 :: fmt4 st.receiptCounter }
  { r1 with taxBreakdown := (calcTotals r1.items).1, totalAmount := (calcTotals r1.items).2 }

/-- The collaborator services of `CashRegister` (hashing never fails in the
source; signing, encryption and submission may). -/
structure Collab where
  hashFn : List ℕ → List ℕ
  signHash : List ℕ → Option (List ℕ)
  encrypt : List ℕ → List ℕ → Option (List ℕ)
  submit : List ℕ → List ℕ → Option Unit

/-- The error sites of `IssueCurrentReceipt`, in pipeline order. -/
inductive IssueErr where
  | noActiveReceipt
  | emptyReceipt
  | validationFailed
  | serializeFailed
  | signFailed
  | assembleFailed
  | encryptFailed
  | submitFailed
deriving DecidableEq

/-- `IssueCurrentReceipt`: finalize and issue in one operation.  The
metadata stamping, totals computation and counter increment happen before
validation; on any later failure the function returns the error for that
step and, as in the source, leaves the stamped receipt in
`currentReceipt` (the field is cleared only on full success). -/
def issueCurrentReceipt (C : Collab) (now : ℤ) (key : List ℕ) (st : CRState) :
    Except IssueErr RReceipt × CRState :=
  match st.currentReceipt with
  | none => (.error .noActiveReceipt, st)
  | some r =>
    if r.items.isEmpty then (.error .emptyReceipt, st)
    else
      let r2 := stampReceipt st now r
      let st2 := { st with currentReceipt := some r2,
                           receiptCounter := st.receiptCounter + 1 }
      if !validateOk r2 then (.error .validationFailed, st2)
      else
        match serializeReceipt (toCodec r2) with
        | .error _ => (.error .serializeFailed, st2)
        | .ok bin =>
          match C.signHash (C.hashFn bin) with
          | none => (.error .signFailed, st2)
          | some sig =>
            match createSignedReceipt bin sig with
            | none => (.error .assembleFailed, st2)
            | some signed =>
              match C.encrypt signed key with
              | none => (.error .encryptFailed, st2)
              | some enc =>
                match C.submit key enc with
                | none => (.error .submitFailed, st2)
                | some _ => (.ok r2, { st2 with currentReceipt := none })

/-- `CancelCurrentReceipt`. -/
def cancelCurrentReceipt (st : CRState) : CRState := { st with currentReceipt := none }

/-- The handler's `ProcessTransaction` (part_008): issue, and on any issue
error cancel the current receipt before responding. -/
def processTransaction (C : Collab) (now : ℤ) (key : List ℕ) (st : CRState) :
    Except IssueErr RReceipt × CRState :=
  match st.currentReceipt with
  | none => (.error .noActiveReceipt, st)
  | some _ =>
    match issueCurrentReceipt C now key st with
    | (.error e, st') => (.error e, cancelCurrentReceipt st')
    | (.ok r, st') => (.ok r, st')

/-! ## Canonical receipts

The codec's decoder prints the structured string fields back in a fixed
zero-padded shape and amounts in whole kuruş; a receipt is *canonical* when
its fields already have that shape, so that no information is lost in
transit.  (`DeserializeReceipt` re-derives the transaction id's date part
from the timestamp, hence the date condition.) -/

/-- An amount that is a whole number of kuruş below 2^32. -/
def amountCanonB (q : ℚ) : Bool :=
  decide (minorOf q < 2 ^ 32) && decide (fromMinor (minorOf q) = q)

/-- `Z%04d` shape. -/
def zCanonB (s : List ℕ) : Bool :=
  match parseZReportNumber s with
  | none => false
  | some n => decide (s = 90 :: fmt4 n)

/-- `TX` + the 8-character date of the timestamp + `%04d` shape. -/
def txCanonB (s : List ℕ) (ts : ℤ) : Bool :=
  match parseTransactionID s with
  | none => false
  | some n => decide (s = [84, 88] ++ fmtDateZ ts ++ fmt4 n)
      && decide ((fmtDateZ ts).length = 8)

/-- `%010d` shape. -/
def vknCanonB (s : List ℕ) : Bool :=
  match parseVKN s with
  | none => false
  | some n => decide (s = fmt10 n)

/-- `F%04d` shape. -/
def serialCanonB (s : List ℕ) : Bool :=
  match parseReceiptSerial s with
  | none => false
  | some n => decide (s = 70 :: fmt4 n)

/-- A line item whose machine fields are in range and whose amounts are
whole kuruş. -/
def itemCanonB (i : Item) : Bool :=
  decide (0 ≤ i.kisimID) && decide (i.kisimID < 65536) &&
  decide (0 ≤ i.quantity) && decide (i.quantity < 65536) &&
  decide (0 ≤ i.taxRate) && decide (i.taxRate < 256) &&
  amountCanonB i.unitPrice && amountCanonB i.totalPrice

/-- A receipt in the decoder's canonical shape. -/
def canonicalReceipt (r : Receipt) : Bool :=
  zCanonB r.zReportNumber && txCanonB r.transactionID r.timestamp &&
  vknCanonB r.storeVKN && serialCanonB r.receiptSerial &&
  decide (0 ≤ r.timestamp) && decide (r.timestamp < 2 ^ 63) &&
  decide (r.storeName.length < 2 ^ 32) && decide (r.storeAddress.length < 2 ^ 32) &&
  decide (r.paymentMethod.length < 2 ^ 32) &&
  amountCanonB r.totalAmount &&
  decide (r.items.length < 2 ^ 16) && r.items.all itemCanonB &&
  amountCanonB r.taxBreakdown.tax10Percent.taxableAmount &&
  amountCanonB r.taxBreakdown.tax10Percent.taxAmount &&
  amountCanonB r.taxBreakdown.tax20Percent.taxableAmount &&
  amountCanonB r.taxBreakdown.tax20Percent.taxAmount &&
  amountCanonB r.taxBreakdown.totalTax

/-- The tail decoder reached once the fixed header fields have been read:
item count, items, tax breakdown (used to factor `deserializeReceipt`). -/
def decodeTail (ts z tx vkn : ℕ) (name addr : List ℕ) (tot : ℕ)
    (pay : List ℕ) (ser : ℕ) (tail : List ℕ) : Except DErr Receipt := do
  let (cnt, s) ← rstep .fieldFail (read2 tail)
  let (items, s) ← readItems cnt s
  let (tb, _) ← rstep .taxFail (readTax s)
  pure
    { zReportNumber := 90 :: fmt4 z
      transactionID := [84, 88] ++ fmtDateZ (toI64 ts) ++ fmt4 tx
      timestamp := toI64 ts
      storeVKN := fmt10 vkn
      storeName := name
      storeAddress := addr
      items := items
      taxBreakdown := tb
      totalAmount := fromMinor tot
      paymentMethod := pay
      receiptSerial := 70 :: fmt4 ser }

/-! ## Spec-side totals (for the refinement comparison of `calculateTotals`)

These two definitions follow the specification's words, to be compared with
`calcTotals`, which is translated from the source. -/

/-- Following the spec's words: the total amount is the sum of the line
totals. -/
def sumLineTotals (items : List RItem) : ℚ := (items.map (·.totalPrice)).sum

/-- Following the spec's words: the taxable base of a rate bucket is
`lineTotal / (1 + rate/100)` summed over the lines of that rate. -/
def specTaxBase (rate : ℤ) (items : List RItem) : ℚ :=
  ((items.filter fun i => decide (i.taxRate = rate)).map
    fun i => i.totalPrice / (1 + (i.taxRate : ℚ) / 100)).sum

/-! ## Concrete artifacts used by witnesses and counterexamples -/

/-- An all-zero tax breakdown. -/
def zeroTax : TaxBreakdown := ⟨⟨0, 0⟩, ⟨0, 0⟩, 0⟩

/-- A receipt the encoder accepts whose structured strings are *not* in the
decoder's padded shape (`Z1`, `TX` + date `00000000` + `1`, VKN `1`,
serial `F1`). -/
def receiptZ1 : Receipt :=
  ⟨[90, 49], [84, 88, 48, 48, 48, 48, 48, 48, 48, 48, 49], 0, [49], [], [],
   [], zeroTax, 0, [], [70, 49]⟩

/-- A canonical receipt: `Z0001`, `TX19700101` + `0001`, ten-digit VKN,
`F0007`, one line item, whole-kuruş amounts. -/
def receiptCanon : Receipt :=
  ⟨90 :: fmt4 1, [84, 88] ++ fmtDateZ 0 ++ fmt4 1, 0, fmt10 123, [65],
   [66, 67], [⟨5, 2, fromMinor 1050, fromMinor 2100, 20⟩],
   ⟨⟨fromMinor 1, fromMinor 2⟩, ⟨fromMinor 3, fromMinor 4⟩, fromMinor 5⟩,
   fromMinor 2100, [67], 70 :: fmt4 7⟩

/-- A fixed serialized-receipt header (timestamp 0, ids 1, empty strings). -/
def hdr0 : List ℕ := headerBytes 0 1 1 1 [] [] 0 [] 1

/-- Thirteen junk bytes: exactly one item record's worth. -/
def junkItem : List ℕ := List.replicate 13 7

/-- Twenty zero bytes: an all-zero tax-breakdown record. -/
def tax0 : List ℕ := List.replicate 20 0

/-- A well-formed encoding declaring zero items. -/
def d5ok : List ℕ := hdr0 ++ be2 0 ++ tax0

/-- The same encoding with one undeclared item record's bytes inserted
before the tax record: the declared count (0) does not match the item
bytes present. -/
def d5extra : List ℕ := hdr0 ++ be2 0 ++ junkItem ++ tax0

/-- Collaborators that succeed at every step (64-byte signature). -/
def collabOK : Collab :=
  ⟨fun _ => [], fun _ => some (List.replicate 64 0), fun d _ => some d,
   fun _ _ => some ()⟩

/-- Collaborators whose signer returns a 63-byte signature. -/
def collabSig63 : Collab :=
  ⟨fun _ => [], fun _ => some (List.replicate 63 0), fun d _ => some d,
   fun _ _ => some ()⟩

/-- A store configuration with a numeric VKN. -/
def storeInfo0 : StoreInfo := ⟨[49], [65], [66]⟩

/-- An open, still-empty register receipt. -/
def emptyRR : RReceipt := ⟨[], [], 0, [], [], [], [], zeroTax, 0, [], []⟩

/-- Register state holding an open empty receipt. -/
def st0 : CRState := ⟨storeInfo0, some emptyRR, 1, 1⟩

/-- An open receipt with one line item and a payment method. -/
def rr1 : RReceipt :=
  { emptyRR with items := [⟨1, [], 10, 1, 10, 20⟩], paymentMethod := [67] }

/-- Register state holding `rr1`. -/
def st1 : CRState := ⟨storeInfo0, some rr1, 1, 1⟩

/-- A stored receipt-bank entry. -/
def sr0 : StoredReceipt := ⟨[1], [2], [3], [], 0⟩

/-- Another entry under the same ephemeral key with a different id. -/
def sr1 : StoredReceipt := ⟨[1], [9], [4], [], 0⟩

/-- The spec's worked scenario: {category 1, qty 2, price 10.50, tax 20%}
and {category 2, qty 1, price 15.00, tax 10%} (line totals 21.00, 15.00). -/
def demoItems : List RItem :=
  [⟨1, [], 21 / 2, 2, 21, 20⟩, ⟨2, [], 15, 1, 15, 10⟩]

/-- The receipt `d5ok` decodes to. -/
def d5okReceipt : Receipt :=
  ⟨90 :: fmt4 1, [84, 88] ++ fmtDateZ (toI64 0) ++ fmt4 1, toI64 0, fmt10 1,
   [], [], [],
   ⟨⟨fromMinor 0, fromMinor 0⟩, ⟨fromMinor 0, fromMinor 0⟩, fromMinor 0⟩,
   fromMinor 0, [], 70 :: fmt4 1⟩

/-! # Lemmas -/

/-! ## Byte-level primitives -/

theorem bytesBE_length (k x : ℕ) : (bytesBE k x).length = k := by
  induction k generalizing x with
  | zero => rfl
  | succ k ih => simp [bytesBE, ih]

theorem read1_be1 {n : ℕ} (r : List ℕ) (h : n < 256) : read1 (be1 n ++ r) = some (n, r) := by
  simp [be1, read1, Nat.mod_eq_of_lt h]

theorem read2_be2 {n : ℕ} (r : List ℕ) (h : n < 2 ^ 16) : read2 (be2 n ++ r) = some (n, r) := by
  simp only [be2, bytesBE, List.nil_append, List.append_assoc, List.cons_append, read2]
  refine congrArg some (Prod.ext ?_ rfl)
  omega

theorem read4_be4 {n : ℕ} (r : List ℕ) (h : n < 2 ^ 32) : read4 (be4 n ++ r) = some (n, r) := by
  simp only [be4, bytesBE, List.nil_append, List.append_assoc, List.cons_append, read4]
  refine congrArg some (Prod.ext ?_ rfl)
  omega

theorem read8_be8 {n : ℕ} (r : List ℕ) (h : n < 2 ^ 64) : read8 (be8 n ++ r) = some (n, r) := by
  simp only [be8, bytesBE, List.nil_append, List.append_assoc, List.cons_append, read8]
  refine congrArg some (Prod.ext ?_ rfl)
  omega

theorem goRead_append (xs : List ℕ) {ys : List ℕ} (h : ys ≠ []) :
    goRead xs.length (xs ++ ys) = some (xs, ys) := by
  rw [goRead, if_neg (by simp [List.append_eq_nil, h])]
  rw [List.take_left, List.drop_left]
  have hz : xs.length - (xs ++ ys).length = 0 := by
    simp [List.length_append]
  simp [hz]

/-! ## Decimal formatting and parsing -/

theorem digitsVal_append (l : List ℕ) (d : ℕ) :
    digitsVal (l ++ [d]) = digitsVal l * 10 + (d - 48) := by
  simp [digitsVal, List.foldl_append]

theorem digitsVal_decDigits (f : ℕ) : ∀ n, n < 10 ^ f → digitsVal (decDigits f n) = n := by
  induction f with
  | zero =>
    intro n h
    have : n = 0 := by simpa using h
    subst this; rfl
  | succ f ih =>
    intro n h
    cases n with
    | zero => rfl
    | succ m =>
      have hdiv : (m + 1) / 10 < 10 ^ f := by
        refine Nat.div_lt_of_lt_mul ?_
        calc m + 1 < 10 ^ (f + 1) := h
          _ = 10 * 10 ^ f := by ring
      simp only [decDigits, digitsVal_append, ih _ hdiv]
      omega

theorem decDigits_digits (f : ℕ) : ∀ n, ∀ b ∈ decDigits f n, isDigit b = true := by
  induction f with
  | zero => intro n b hb; simp [decDigits] at hb
  | succ f ih =>
    intro n b hb
    cases n with
    | zero => simp [decDigits] at hb
    | succ m =>
      simp only [decDigits, List.mem_append, List.mem_singleton] at hb
      rcases hb with hb | hb
      · exact ih _ b hb
      · subst hb; simp [isDigit]; omega

theorem decDigits_ne_nil {f n : ℕ} (h0 : 0 < n) (h : n < 10 ^ f) :
    decDigits f n ≠ [] := by
  cases f with
  | zero => omega
  | succ f =>
    cases n with
    | zero => omega
    | succ m => simp [decDigits]

theorem digitsVal_decRepr {n : ℕ} (h : n < 10 ^ 40) : digitsVal (decRepr n) = n := by
  unfold decRepr
  split
  · subst ‹n = 0›; rfl
  · exact digitsVal_decDigits 40 n h

theorem decRepr_digits (n : ℕ) : ∀ b ∈ decRepr n, isDigit b = true := by
  intro b hb
  unfold decRepr at hb
  split at hb
  · simp at hb; subst hb; rfl
  · exact decDigits_digits 40 n b hb

theorem decRepr_ne_nil {n : ℕ} (h : n < 10 ^ 40) : decRepr n ≠ [] := by
  unfold decRepr
  split
  · simp
  · exact decDigits_ne_nil (by omega) h

theorem foldl_digits_replicate48 (k : ℕ) :
    List.foldl (fun a b => a * 10 + (b - 48)) 0 (List.replicate k 48) = 0 := by
  induction k with
  | zero => rfl
  | succ k ih => simpa [List.replicate_succ] using ih

theorem digitsVal_padZero (w : ℕ) (l : List ℕ) : digitsVal (padZero w l) = digitsVal l := by
  unfold padZero digitsVal
  rw [List.foldl_append, foldl_digits_replicate48]

theorem padZero_digits (w : ℕ) (l : List ℕ) (hl : ∀ c ∈ l, isDigit c = true) :
    ∀ b ∈ padZero w l, isDigit b = true := by
  intro b hb
  unfold padZero at hb
  rw [List.mem_append] at hb
  rcases hb with hb | hb
  · have := List.eq_of_mem_replicate hb
    subst this; rfl
  · exact hl b hb

theorem padZero_length (w : ℕ) (l : List ℕ) :
    (padZero w l).length = (w - l.length) + l.length := by
  simp [padZero]

theorem padZero_ne_nil {w : ℕ} {l : List ℕ} (h : l ≠ []) : padZero w l ≠ [] := by
  unfold padZero
  simp [List.append_eq_nil, h]

theorem takeWhile_digits {l : List ℕ} (h : ∀ b ∈ l, isDigit b = true) :
    l.takeWhile isDigit = l := by
  induction l with
  | nil => rfl
  | cons a t ih =>
    rw [List.takeWhile_cons, if_pos (h a (List.mem_cons_self a t))]
    rw [ih fun b hb => h b (List.mem_cons_of_mem a hb)]

theorem sscanfU32_pad {n : ℕ} (w : ℕ) (h : n < 2 ^ 32) :
    sscanfU32 (padZero w (decRepr n)) = some n := by
  have hbig : n < 10 ^ 40 := lt_trans h (by norm_num)
  have hd : ∀ b ∈ padZero w (decRepr n), isDigit b = true :=
    padZero_digits w _ (decRepr_digits n)
  have hv : digitsVal (padZero w (decRepr n)) = n := by
    rw [digitsVal_padZero, digitsVal_decRepr hbig]
  have hne : padZero w (decRepr n) ≠ [] := padZero_ne_nil (decRepr_ne_nil hbig)
  unfold sscanfU32
  rw [takeWhile_digits hd]
  rw [if_neg (by simpa [List.isEmpty_iff] using hne), hv, if_pos h]

theorem sscanfU32_lt {s : List ℕ} {n : ℕ} (h : sscanfU32 s = some n) : n < 2 ^ 32 := by
  unfold sscanfU32 at h
  simp only at h
  split at h
  · exact absurd h (by simp)
  · split at h
    · cases h; assumption
    · exact absurd h (by simp)

theorem sscanfU32_fmt4 {n : ℕ} (h : n < 2 ^ 32) : sscanfU32 (fmt4 n) = some n :=
  sscanfU32_pad 4 h

theorem sscanfU32_fmt10 {n : ℕ} (h : n < 2 ^ 32) : sscanfU32 (fmt10 n) = some n :=
  sscanfU32_pad 10 h

theorem fmt4_length_ge (n : ℕ) : 4 ≤ (fmt4 n).length := by
  rw [fmt4, padZero_length]; omega

theorem parseZ_fmt4 {n : ℕ} (h : n < 2 ^ 32) :
    parseZReportNumber (90 :: fmt4 n) = some n := by
  unfold parseZReportNumber
  rw [if_pos]
  · simpa using sscanfU32_fmt4 h
  · constructor
    · have := fmt4_length_ge n; simp [List.length_cons]; omega
    · rfl

theorem parseSerial_fmt4 {n : ℕ} (h : n < 2 ^ 32) :
    parseReceiptSerial (70 :: fmt4 n) = some n := by
  unfold parseReceiptSerial
  rw [if_pos]
  · simpa using sscanfU32_fmt4 h
  · constructor
    · have := fmt4_length_ge n; simp [List.length_cons]; omega
    · rfl

theorem parseVKN_fmt10 {n : ℕ} (h : n < 2 ^ 32) : parseVKN (fmt10 n) = some n :=
  sscanfU32_fmt10 h

theorem minorOf_fromMinor (k : ℕ) : minorOf (fromMinor k) = k := by
  unfold minorOf fromMinor
  rw [div_mul_cancel₀ _ (by norm_num : (100 : ℚ) ≠ 0)]
  rw [Int.floor_natCast]
  rfl

theorem toU64_lt (t : ℤ) : toU64 t < 2 ^ 64 := by
  unfold toU64
  have h1 : t % (2 ^ 64 : ℤ) < 2 ^ 64 := Int.emod_lt_of_pos t (by norm_num)
  omega

theorem toI64_toU64 {t : ℤ} (h0 : 0 ≤ t) (h1 : t < 2 ^ 63) : toI64 (toU64 t) = t := by
  unfold toI64 toU64
  have he : t % (2 ^ 64 : ℤ) = t := Int.emod_eq_of_lt h0 (by omega)
  rw [he]
  rw [if_pos (by omega)]
  omega

theorem parseTX_fmt4 {n : ℕ} {D : List ℕ} (hD : D.length = 8) (h : n < 2 ^ 32) :
    parseTransactionID ([84, 88] ++ D ++ fmt4 n) = some n := by
  unfold parseTransactionID
  have hlen : 4 ≤ (fmt4 n).length := fmt4_length_ge n
  rw [if_pos]
  · have hdrop : ([84, 88] ++ D ++ fmt4 n).drop 10 = fmt4 n := by
      rw [List.append_assoc]
      have h10 : ([84, 88] ++ D).length = 10 := by simp [hD]
      calc ([84, 88] ++ (D ++ fmt4 n)).drop 10
          = (([84, 88] ++ D) ++ fmt4 n).drop 10 := by rw [List.append_assoc]
        _ = fmt4 n := List.drop_left' h10
    rw [hdrop]
    exact sscanfU32_fmt4 h
  · constructor
    · simp [List.length_append, hD]; omega
    · rfl

/-! ## Except plumbing and symbolic execution of the decoder -/

theorem rstep_some {α : Type} (e : DErr) (a : α) : rstep e (some a) = .ok a := rfl

theorem rstep_none {α : Type} (e : DErr) : rstep e (none : Option α) = .error e := rfl

theorem except_bind_ok {ε α β : Type} (a : α) (f : α → Except ε β) :
    (Except.ok a : Except ε α) >>= f = f a := rfl

theorem except_bind_err {ε α β : Type} (e : ε) (f : α → Except ε β) :
    (Except.error e : Except ε α) >>= f = .error e := rfl

theorem except_pure {ε α : Type} (a : α) : (pure a : Except ε α) = .ok a := rfl

theorem be4_append_ne_nil (m : ℕ) (r : List ℕ) : be4 m ++ r ≠ [] := by
  intro h
  rw [List.append_eq_nil] at h
  have := bytesBE_length 4 m
  rw [show be4 m = bytesBE 4 m from rfl] at h
  rw [h.1] at this
  simp at this

theorem headerBytes_length (ts z tx vkn tot ser : ℕ) (name addr pay : List ℕ) :
    (headerBytes ts z tx vkn name addr tot pay ser).length
      = 44 + name.length + addr.length + pay.length := by
  simp [headerBytes, be2, be1, be8, be4, List.length_append, bytesBE_length]
  omega

set_option maxRecDepth 4000 in
theorem deserialize_header
    {ts z tx vkn tot ser : ℕ} {name addr pay : List ℕ} (tail : List ℕ)
    (hts : ts < 2 ^ 64) (hz : z < 2 ^ 32) (htx : tx < 2 ^ 32) (hv : vkn < 2 ^ 32)
    (htot : tot < 2 ^ 32) (hser : ser < 2 ^ 32)
    (hn : name.length < 2 ^ 32) (ha : addr.length < 2 ^ 32)
    (hp : pay.length < 2 ^ 32) :
    deserializeReceipt (headerBytes ts z tx vkn name addr tot pay ser ++ tail)
      = decodeTail ts z tx vkn name addr tot pay ser tail := by
  have hlen : ¬ ((headerBytes ts z tx vkn name addr tot pay ser ++ tail).length < 4) := by
    rw [List.length_append, headerBytes_length]
    omega
  have hm : magicBytes < 2 ^ 16 := by norm_num [magicBytes]
  have hv1 : formatVersion < 256 := by norm_num [formatVersion]
  have hr0 : reservedByte < 256 := by norm_num [reservedByte]
  unfold deserializeReceipt decodeTail
  rw [if_neg hlen]
  unfold headerBytes
  simp only [List.append_assoc]
  simp only [read2_be2, read1_be1, read8_be8, read4_be4, goRead_append,
    be4_append_ne_nil, rstep_some, except_bind_ok, except_pure,
    hm, hv1, hr0, hts, hz, htx, hv, htot, hser, hn, ha, hp,
    ne_eq, eq_self_iff_true, not_true, not_false_eq_true, if_false, if_true,
    ite_false, ite_true]

/-! ## Items and tax-breakdown round trips -/

theorem amountCanon_fields {q : ℚ} (h : amountCanonB q = true) :
    minorOf q < 2 ^ 32 ∧ fromMinor (minorOf q) = q := by
  simpa [amountCanonB, Bool.and_eq_true, decide_eq_true_eq] using h

theorem itemCanon_fields {i : Item} (h : itemCanonB i = true) :
    0 ≤ i.kisimID ∧ i.kisimID < 65536 ∧ 0 ≤ i.quantity ∧ i.quantity < 65536 ∧
    0 ≤ i.taxRate ∧ i.taxRate < 256 ∧
    minorOf i.unitPrice < 2 ^ 32 ∧ fromMinor (minorOf i.unitPrice) = i.unitPrice ∧
    minorOf i.totalPrice < 2 ^ 32 ∧ fromMinor (minorOf i.totalPrice) = i.totalPrice := by
  simp only [itemCanonB, amountCanonB, Bool.and_eq_true, decide_eq_true_eq] at h
  tauto

theorem readItem_itemBytes {i : Item} (rest : List ℕ) (h : itemCanonB i = true) :
    readItem (itemBytes i ++ rest) = some (i, rest) := by
  obtain ⟨hk0, hk1, hq0, hq1, hr0, hr1, hu1, hu2, ht1, ht2⟩ := itemCanon_fields h
  obtain ⟨ki, qi, ui, ti, ri⟩ := i
  simp only at hk0 hk1 hq0 hq1 hr0 hr1 hu1 hu2 ht1 ht2
  have ha2 : (ki % 65536).toNat < 2 ^ 16 := by omega
  have hb2 : (qi % 65536).toNat < 2 ^ 16 := by omega
  have he1 : (ri % 256).toNat < 256 := by omega
  unfold readItem itemBytes
  simp only [List.append_assoc]
  simp only [read2_be2, read4_be4, read1_be1, ha2, hb2, he1, hu1, ht1,
    Option.bind_eq_bind, Option.some_bind, Option.pure_def, Option.some.injEq,
    Prod.mk.injEq, Item.mk.injEq]
  refine ⟨⟨?_, ?_, hu2, ht2, ?_⟩, trivial⟩ <;> omega

theorem readTax_taxBytes {t : TaxBreakdown} (rest : List ℕ)
    (h1 : amountCanonB t.tax10Percent.taxableAmount = true)
    (h2 : amountCanonB t.tax10Percent.taxAmount = true)
    (h3 : amountCanonB t.tax20Percent.taxableAmount = true)
    (h4 : amountCanonB t.tax20Percent.taxAmount = true)
    (h5 : amountCanonB t.totalTax = true) :
    readTax (taxBytes t ++ rest) = some (t, rest) := by
  obtain ⟨h1a, h1b⟩ := amountCanon_fields h1
  obtain ⟨h2a, h2b⟩ := amountCanon_fields h2
  obtain ⟨h3a, h3b⟩ := amountCanon_fields h3
  obtain ⟨h4a, h4b⟩ := amountCanon_fields h4
  obtain ⟨h5a, h5b⟩ := amountCanon_fields h5
  obtain ⟨⟨b10, a10⟩, ⟨b20, a20⟩, tt⟩ := t
  simp only at h1a h1b h2a h2b h3a h3b h4a h4b h5a h5b
  unfold readTax taxBytes
  simp only [List.append_assoc]
  simp only [read4_be4, h1a, h2a, h3a, h4a, h5a,
    Option.bind_eq_bind, Option.some_bind, Option.pure_def, Option.some.injEq,
    Prod.mk.injEq, TaxBreakdown.mk.injEq, TaxDetail.mk.injEq]
  exact ⟨⟨⟨h1b, h2b⟩, ⟨h3b, h4b⟩, h5b⟩, trivial⟩

theorem readItems_itemsBytes {items : List Item} (rest : List ℕ)
    (h : items.all itemCanonB = true) :
    readItems items.length (itemsBytes items ++ rest) = .ok (items, rest) := by
  induction items with
  | nil => simp [readItems, itemsBytes]
  | cons i is ih =>
    rw [List.all_cons, Bool.and_eq_true] at h
    simp only [List.length_cons, itemsBytes, List.append_assoc, readItems,
      readItem_itemBytes, h.1, ih h.2]

/-! ## Item-region shortfall -/

theorem read1_short {s : List ℕ} (h : s.length < 1) : read1 s = none := by
  rcases s with _ | ⟨a, r⟩
  · rfl
  · simp at h

theorem read2_short {s : List ℕ} (h : s.length < 2) : read2 s = none := by
  rcases s with _ | ⟨a, _ | ⟨b, r⟩⟩
  · rfl
  · rfl
  · exact absurd h (by simp only [List.length_cons]; omega)

theorem read4_short {s : List ℕ} (h : s.length < 4) : read4 s = none := by
  rcases s with _ | ⟨a, _ | ⟨b, _ | ⟨c, _ | ⟨d, r⟩⟩⟩⟩
  · rfl
  · rfl
  · rfl
  · rfl
  · exact absurd h (by simp only [List.length_cons]; omega)

theorem read2_len {s t : List ℕ} {n : ℕ} (h : read2 s = some (n, t)) :
    t.length + 2 = s.length := by
  rcases s with _ | ⟨a, _ | ⟨b, r⟩⟩
  · simp [read2] at h
  · simp [read2] at h
  · simp only [read2, Option.some.injEq, Prod.mk.injEq] at h
    rw [← h.2]
    simp

theorem read4_len {s t : List ℕ} {n : ℕ} (h : read4 s = some (n, t)) :
    t.length + 4 = s.length := by
  rcases s with _ | ⟨a, _ | ⟨b, _ | ⟨c, _ | ⟨d, r⟩⟩⟩⟩
  · simp [read4] at h
  · simp [read4] at h
  · simp [read4] at h
  · simp [read4] at h
  · simp only [read4, Option.some.injEq, Prod.mk.injEq] at h
    rw [← h.2]
    simp

theorem read1_len {s t : List ℕ} {n : ℕ} (h : read1 s = some (n, t)) :
    t.length + 1 = s.length := by
  rcases s with _ | ⟨a, r⟩
  · simp [read1] at h
  · simp only [read1, Option.some.injEq, Prod.mk.injEq] at h
    rw [← h.2]
    simp

theorem readItem_short {s : List ℕ} (h : s.length < 13) : readItem s = none := by
  unfold readItem
  cases h2 : read2 s with
  | none => rfl
  | some v2 =>
    obtain ⟨n2, s2⟩ := v2
    have l2 := read2_len h2
    cases h3 : read2 s2 with
    | none => simp [Option.bind_eq_bind, h3]
    | some v3 =>
      obtain ⟨n3, s3⟩ := v3
      have l3 := read2_len h3
      cases h4 : read4 s3 with
      | none => simp [Option.bind_eq_bind, h3, h4]
      | some v4 =>
        obtain ⟨n4, s4⟩ := v4
        have l4 := read4_len h4
        cases h5 : read4 s4 with
        | none => simp [Option.bind_eq_bind, h3, h4, h5]
        | some v5 =>
          obtain ⟨n5, s5⟩ := v5
          have l5 := read4_len h5
          have : s5.length < 1 := by omega
          simp [Option.bind_eq_bind, h3, h4, h5, read1_short this]

theorem readItem_len {s : List ℕ} {x : Item × List ℕ} (h : readItem s = some x) :
    x.2.length + 13 = s.length := by
  unfold readItem at h
  simp only [Option.bind_eq_bind] at h
  cases h2 : read2 s with
  | none => rw [h2] at h; simp at h
  | some v2 =>
    obtain ⟨n2, s2⟩ := v2
    rw [h2] at h
    simp only [Option.some_bind] at h
    have l2 := read2_len h2
    cases h3 : read2 s2 with
    | none => rw [h3] at h; simp at h
    | some v3 =>
      obtain ⟨n3, s3⟩ := v3
      rw [h3] at h
      simp only [Option.some_bind] at h
      have l3 := read2_len h3
      cases h4 : read4 s3 with
      | none => rw [h4] at h; simp at h
      | some v4 =>
        obtain ⟨n4, s4⟩ := v4
        rw [h4] at h
        simp only [Option.some_bind] at h
        have l4 := read4_len h4
        cases h5 : read4 s4 with
        | none => rw [h5] at h; simp at h
        | some v5 =>
          obtain ⟨n5, s5⟩ := v5
          rw [h5] at h
          simp only [Option.some_bind] at h
          have l5 := read4_len h5
          cases h6 : read1 s5 with
          | none => rw [h6] at h; simp at h
          | some v6 =>
            obtain ⟨n6, s6⟩ := v6
            rw [h6] at h
            simp only [Option.some_bind, Option.pure_def, Option.some.injEq] at h
            have l6 := read1_len h6
            rw [← h]
            show s6.length + 13 = s.length
            omega

theorem readItems_short {c : ℕ} : ∀ {s : List ℕ}, s.length < 13 * c →
    readItems c s = .error .itemFail := by
  induction c with
  | zero => intro s h; omega
  | succ c ih =>
    intro s h
    by_cases h13 : s.length < 13
    · unfold readItems
      rw [readItem_short h13]
    · unfold readItems
      cases hi : readItem s with
      | none => rfl
      | some x =>
        obtain ⟨i, s'⟩ := x
        have hl := readItem_len hi
        have hl' : s'.length + 13 = s.length := hl
        have hs' : s'.length < 13 * c := by omega
        simp [ih hs']

/-! ## Canonical receipts decode to themselves -/

theorem parseZ_lt {s : List ℕ} {n : ℕ} (h : parseZReportNumber s = some n) :
    n < 2 ^ 32 := by
  unfold parseZReportNumber at h
  split at h
  · exact sscanfU32_lt h
  · simp at h

theorem parseTX_lt {s : List ℕ} {n : ℕ} (h : parseTransactionID s = some n) :
    n < 2 ^ 32 := by
  unfold parseTransactionID at h
  split at h
  · exact sscanfU32_lt h
  · simp at h

theorem parseVKN_lt {s : List ℕ} {n : ℕ} (h : parseVKN s = some n) : n < 2 ^ 32 :=
  sscanfU32_lt h

theorem parseSerial_lt {s : List ℕ} {n : ℕ} (h : parseReceiptSerial s = some n) :
    n < 2 ^ 32 := by
  unfold parseReceiptSerial at h
  split at h
  · exact sscanfU32_lt h
  · simp at h

theorem zCanon_val {s : List ℕ} (h : zCanonB s = true) :
    ∃ n, n < 2 ^ 32 ∧ s = 90 :: fmt4 n := by
  unfold zCanonB at h
  split at h
  · simp at h
  · next n heq => exact ⟨n, parseZ_lt heq, by simpa using h⟩

theorem txCanon_val {s : List ℕ} {ts : ℤ} (h : txCanonB s ts = true) :
    ∃ n, n < 2 ^ 32 ∧ (fmtDateZ ts).length = 8 ∧
      s = [84, 88] ++ fmtDateZ ts ++ fmt4 n := by
  unfold txCanonB at h
  split at h
  · simp at h
  · next n heq =>
    rw [Bool.and_eq_true, decide_eq_true_eq, decide_eq_true_eq] at h
    exact ⟨n, parseTX_lt heq, h.2, h.1⟩

theorem vknCanon_val {s : List ℕ} (h : vknCanonB s = true) :
    ∃ n, n < 2 ^ 32 ∧ s = fmt10 n := by
  unfold vknCanonB at h
  split at h
  · simp at h
  · next n heq => exact ⟨n, parseVKN_lt heq, by simpa using h⟩

theorem serialCanon_val {s : List ℕ} (h : serialCanonB s = true) :
    ∃ n, n < 2 ^ 32 ∧ s = 70 :: fmt4 n := by
  unfold serialCanonB at h
  split at h
  · simp at h
  · next n heq => exact ⟨n, parseSerial_lt heq, by simpa using h⟩

theorem canonical_fields {r : Receipt} (h : canonicalReceipt r = true) :
    zCanonB r.zReportNumber = true ∧ txCanonB r.transactionID r.timestamp = true ∧
    vknCanonB r.storeVKN = true ∧ serialCanonB r.receiptSerial = true ∧
    0 ≤ r.timestamp ∧ r.timestamp < 2 ^ 63 ∧
    r.storeName.length < 2 ^ 32 ∧ r.storeAddress.length < 2 ^ 32 ∧
    r.paymentMethod.length < 2 ^ 32 ∧ amountCanonB r.totalAmount = true ∧
    r.items.length < 2 ^ 16 ∧ r.items.all itemCanonB = true ∧
    amountCanonB r.taxBreakdown.tax10Percent.taxableAmount = true ∧
    amountCanonB r.taxBreakdown.tax10Percent.taxAmount = true ∧
    amountCanonB r.taxBreakdown.tax20Percent.taxableAmount = true ∧
    amountCanonB r.taxBreakdown.tax20Percent.taxAmount = true ∧
    amountCanonB r.taxBreakdown.totalTax = true := by
  simp only [canonicalReceipt, Bool.and_eq_true, decide_eq_true_eq] at h
  tauto

theorem serialize_canonical {r : Receipt} {nz ntx nv ns : ℕ}
    (hzeq : r.zReportNumber = 90 :: fmt4 nz) (hnz : nz < 2 ^ 32)
    (hdlen : (fmtDateZ r.timestamp).length = 8)
    (htxeq : r.transactionID = [84, 88] ++ fmtDateZ r.timestamp ++ fmt4 ntx)
    (hntx : ntx < 2 ^ 32)
    (hveq : r.storeVKN = fmt10 nv) (hnv : nv < 2 ^ 32)
    (hseq : r.receiptSerial = 70 :: fmt4 ns) (hns : ns < 2 ^ 32) :
    serializeReceipt r
      = .ok (headerBytes (toU64 r.timestamp) nz ntx nv r.storeName r.storeAddress
          (minorOf r.totalAmount) r.paymentMethod ns
        ++ be2 r.items.length ++ itemsBytes r.items ++ taxBytes r.taxBreakdown) := by
  unfold serializeReceipt
  simp only [hzeq, htxeq, hveq, hseq, parseZ_fmt4 hnz, parseTX_fmt4 hdlen hntx,
    parseVKN_fmt10 hnv, parseSerial_fmt4 hns]

theorem deserialize_serialize_canonical (r : Receipt) (h : canonicalReceipt r = true) :
    ∃ bs, serializeReceipt r = .ok bs ∧ deserializeReceipt bs = .ok r := by
  obtain ⟨hzc, htxc, hvc, hsc, ht0, ht1, hn, ha, hp, htotc, hcnt, hic,
    hb1, hb2, hb3, hb4, hb5⟩ := canonical_fields h
  obtain ⟨nz, hnz, hzeq⟩ := zCanon_val hzc
  obtain ⟨ntx, hntx, hdlen, htxeq⟩ := txCanon_val htxc
  obtain ⟨nv, hnv, hveq⟩ := vknCanon_val hvc
  obtain ⟨ns, hns, hseq⟩ := serialCanon_val hsc
  obtain ⟨htota, htotb⟩ := amountCanon_fields htotc
  refine ⟨_, serialize_canonical hzeq hnz hdlen htxeq hntx hveq hnv hseq hns, ?_⟩
  rw [List.append_assoc, List.append_assoc]
  rw [deserialize_header _ (toU64_lt _) hnz hntx hnv htota hns hn ha hp]
  have htax : readTax (taxBytes r.taxBreakdown) = some (r.taxBreakdown, []) := by
    have := readTax_taxBytes [] hb1 hb2 hb3 hb4 hb5
    simpa using this
  unfold decodeTail
  simp only [read2_be2, hcnt, rstep_some, except_bind_ok,
    readItems_itemsBytes, hic, htax, except_pure, toI64_toU64 ht0 ht1]
  simp only [Except.ok.injEq]
  obtain ⟨z', tx', ts', v', nm', ad', it', tb', tot', pm', sr'⟩ := r
  simp only at hzeq htxeq hveq hseq htotb
  simp only [Receipt.mk.injEq]
  refine ⟨hzeq.symm, ?_, trivial, hveq.symm, trivial, trivial, trivial, trivial,
    htotb, trivial, hseq.symm⟩
  rw [htxeq, List.append_assoc]

/-! ## Store lemmas -/

theorem msLookup_cons_self (k : List ℕ) (v : StoredReceipt) (m : MemStore) :
    msLookup k ((k, v) :: m) = some v := by
  simp [msLookup, List.find?_cons_of_pos]

theorem msErase_cons_self (k : List ℕ) (v : StoredReceipt) (m : MemStore) :
    msErase k ((k, v) :: m) = msErase k m := by
  simp [msErase]

theorem msLookup_erase (k : List ℕ) (m : MemStore) :
    msLookup k (msErase k m) = none := by
  induction m with
  | nil => rfl
  | cons e m ih =>
    by_cases hk : e.1 = k
    · simpa [msErase, hk] using ih
    · simpa [msErase, msLookup, List.find?_cons_of_neg, hk] using ih

theorem msErase_erase (k : List ℕ) (m : MemStore) :
    msErase k (msErase k m) = msErase k m := by
  simp [msErase, List.filter_filter]

theorem msRetrieve_stored (k : List ℕ) (v : StoredReceipt) (m : MemStore) :
    msRetrieve k ((k, v) :: msErase k m) = .ok (v, msErase k m) := by
  unfold msRetrieve
  rw [msLookup_cons_self, msErase_cons_self, msErase_erase]

theorem msRetrieve_erased (k : List ℕ) (m : MemStore) :
    msRetrieve k (msErase k m) = .error .notFound := by
  unfold msRetrieve
  rw [msLookup_erase]

/-! ## Totals lemmas -/

theorem calcLoop_eq (items : List RItem) : ∀ acc : ℚ × ℚ × ℚ,
    calcLoop acc items = (acc.1 + sumLineTotals items,
      acc.2.1 + specTaxBase 10 items, acc.2.2 + specTaxBase 20 items) := by
  induction items with
  | nil =>
    intro acc
    obtain ⟨t, b10, b20⟩ := acc
    simp [calcLoop, sumLineTotals, specTaxBase]
  | cons i is ih =>
    intro acc
    obtain ⟨t, b10, b20⟩ := acc
    simp only [calcLoop]
    rw [ih]
    unfold sumLineTotals specTaxBase
    simp only [List.map_cons, List.sum_cons, List.filter_cons]
    refine Prod.ext ?_ (Prod.ext ?_ ?_) <;> simp only []
    · ring
    · by_cases h10 : i.taxRate = 10
      · simp [h10]; ring
      · simp [h10]
    · by_cases h20 : i.taxRate = 20
      · simp [h20]; ring
      · simp [h20]

/-! ## Item-merge lemmas -/

theorem mergeAdd_no_match (items : List RItem) (k : ℕ) (info : KisimInfo)
    (up : ℚ) (q : ℤ)
    (h : ∀ i ∈ items, ¬(i.kisimID = k ∧ i.unitPrice = up)) :
    mergeAdd items k info up q
      = items ++ [⟨k, info.kname, up, q, up * (q : ℚ), info.taxRate⟩] := by
  induction items with
  | nil => rfl
  | cons i is ih =>
    unfold mergeAdd
    rw [if_neg (h i (List.mem_cons_self i is))]
    rw [ih fun j hj => h j (List.mem_cons_of_mem i hj)]
    rfl

theorem mergeAdd_first_match (pre post : List RItem) (line : RItem) (k : ℕ)
    (info : KisimInfo) (up : ℚ) (q : ℤ)
    (hpre : ∀ i ∈ pre, ¬(i.kisimID = k ∧ i.unitPrice = up))
    (hk : line.kisimID = k) (hu : line.unitPrice = up) :
    mergeAdd (pre ++ line :: post) k info up q
      = pre ++ ⟨line.kisimID, line.kisimName, line.unitPrice, line.quantity + q,
          line.unitPrice * ((line.quantity + q : ℤ) : ℚ), line.taxRate⟩ :: post := by
  induction pre with
  | nil =>
    simp only [List.nil_append]
    unfold mergeAdd
    rw [if_pos ⟨hk, hu⟩]
  | cons i pre ih =>
    show mergeAdd (i :: (pre ++ line :: post)) k info up q = _
    unfold mergeAdd
    rw [if_neg (hpre i (List.mem_cons_self i pre))]
    rw [ih fun j hj => hpre j (List.mem_cons_of_mem i hj)]
    rfl

theorem throw_bind {ε α β : Type} (e : ε) (f : α → Except ε β) :
    (throw e : Except ε α) >>= f = .error e := rfl

theorem decode_short {d : List ℕ} (h : d.length < 4) :
    deserializeReceipt d = .error .tooShort := by
  rw [deserializeReceipt, if_pos h]

theorem decode_badMagic {m1 m2 : ℕ} (rest : List ℕ) (h1 : m1 < 256)
    (h2 : m2 < 256) (hm : ¬(m1 = 84 ∧ m2 = 82)) (hlen : 2 ≤ rest.length) :
    deserializeReceipt (m1 :: m2 :: rest) = .error .badMagic := by
  have hmag : m1 * 256 + m2 ≠ magicBytes := by
    simp only [magicBytes]
    omega
  unfold deserializeReceipt
  rw [if_neg (by simp only [List.length_cons]; omega)]
  simp only [read2, rstep_some, except_bind_ok, hmag, ne_eq,
    not_false_eq_true, if_true, ite_true, throw_bind]

theorem decode_badVersion {v : ℕ} (rest : List ℕ) (hv : v ≠ 1)
    (hlen : 1 ≤ rest.length) :
    deserializeReceipt (84 :: 82 :: v :: rest) = .error .badVersion := by
  unfold deserializeReceipt
  rw [if_neg (by simp only [List.length_cons]; omega)]
  simp only [read2, read1, rstep_some, except_bind_ok, except_pure,
    throw_bind, hv, magicBytes, formatVersion, ne_eq, eq_self_iff_true,
    not_true, not_false_eq_true, if_false, if_true, ite_false, ite_true]

theorem decode_badReserved {b : ℕ} (rest : List ℕ) (hres : b ≠ 0) :
    deserializeReceipt (84 :: 82 :: 1 :: b :: rest) = .error .badReserved := by
  unfold deserializeReceipt
  rw [if_neg (by simp only [List.length_cons]; omega)]
  simp only [read2, read1, rstep_some, except_bind_ok, except_pure,
    throw_bind, hres, magicBytes, formatVersion, reservedByte, ne_eq,
    eq_self_iff_true, not_true, not_false_eq_true, if_false, if_true,
    ite_false, ite_true]

theorem decode_itemShort {ts z tx vkn tot ser c : ℕ}
    {name addr pay ib : List ℕ}
    (hts : ts < 2 ^ 64) (hz : z < 2 ^ 32) (htx : tx < 2 ^ 32)
    (hv : vkn < 2 ^ 32) (htot : tot < 2 ^ 32) (hser : ser < 2 ^ 32)
    (hn : name.length < 2 ^ 32) (ha : addr.length < 2 ^ 32)
    (hp : pay.length < 2 ^ 32) (hc : c < 2 ^ 16) (hib : ib.length < 13 * c) :
    deserializeReceipt
        (headerBytes ts z tx vkn name addr tot pay ser ++ (be2 c ++ ib))
      = .error .itemFail := by
  rw [deserialize_header _ hts hz htx hv htot hser hn ha hp]
  unfold decodeTail
  rw [read2_be2 _ hc]
  simp only [rstep_some, except_bind_ok]
  rw [readItems_short hib]
  rfl

theorem exists_ok_of_isOk {ε α : Type} {x : Except ε α} (h : x.isOk = true) :
    ∃ a, x = .ok a := by
  cases x with
  | error e => simp [Except.isOk, Except.toBool] at h
  | ok a => exact ⟨a, rfl⟩

theorem amountCanon_fromMinor {k : ℕ} (h : k < 2 ^ 32) :
    amountCanonB (fromMinor k) = true := by
  simp only [amountCanonB, minorOf_fromMinor, Bool.and_eq_true, decide_eq_true_eq]
  exact ⟨h, trivial⟩

theorem minorOf_zero : minorOf 0 = 0 := by
  have h : (0 : ℚ) = fromMinor 0 := by norm_num [fromMinor]
  rw [h, minorOf_fromMinor]

theorem amountCanon_zero : amountCanonB 0 = true := by
  have h : (0 : ℚ) = fromMinor 0 := by norm_num [fromMinor]
  rw [h]
  exact amountCanon_fromMinor (by norm_num)

theorem addItem_ok (lookup : ℕ → Option KisimInfo) (st : CRState) (r : RReceipt)
    (C : ℕ) (P : ℚ) (q : ℤ) (info : KisimInfo)
    (hr : st.currentReceipt = some r) (hlk : lookup C = some info) (hP : 0 < P) :
    addItem lookup st C q P
      = .ok { st with currentReceipt := some { r with items := mergeAdd r.items C info P q } } := by
  unfold addItem
  split
  · next heq => rw [heq] at hr; simp at hr
  · next r' heq =>
    rw [heq] at hr
    injection hr with hr'
    subst hr'
    split
    · next hlk' => rw [hlk'] at hlk; simp at hlk
    · next info' hlk' =>
      rw [hlk'] at hlk
      injection hlk with hlk2
      subst hlk2
      rw [if_pos hP]

/-! ## EC point codec lemmas -/

theorem beVal_append_single (l : List ℕ) (d : ℕ) :
    beVal (l ++ [d]) = beVal l * 256 + d := by
  simp [beVal, List.foldl_append]

theorem beVal_bytesBE (k : ℕ) : ∀ x, beVal (bytesBE k x) = x % 256 ^ k := by
  induction k with
  | zero => intro x; simp [bytesBE, beVal, Nat.mod_one]
  | succ k ih =>
    intro x
    rw [show bytesBE (k + 1) x = bytesBE k (x / 256) ++ [x % 256] from rfl]
    rw [beVal_append_single, ih, pow_succ' 256 k, Nat.mod_mul]
    ring

theorem powMod_eq {p : ℕ} (hp : 0 < p) :
    ∀ f a e, e ≤ f → powMod f a e p = a ^ e % p := by
  intro f
  induction f with
  | zero =>
    intro a e he
    have he0 : e = 0 := by omega
    subst he0
    simp [powMod]
  | succ f ih =>
    intro a e he
    unfold powMod
    by_cases h0 : e = 0
    · subst h0; simp
    · rw [if_neg h0]
      have hle : e / 2 ≤ f := by omega
      rw [ih _ _ hle]
      have key : (a * a % p) ^ (e / 2) % p = (a * a) ^ (e / 2) % p := by
        rw [← Nat.pow_mod]
      by_cases h1 : e % 2 = 1
      · rw [if_pos h1, key]
        have hexp : a ^ e = a * (a * a) ^ (e / 2) := by
          conv_lhs => rw [show e = 2 * (e / 2) + 1 by omega]
          rw [pow_succ, pow_mul]
          ring
        rw [hexp]
        conv_rhs => rw [Nat.mul_mod]
      · rw [if_neg h1, key]
        have hexp : a ^ e = (a * a) ^ (e / 2) := by
          conv_lhs => rw [show e = 2 * (e / 2) by omega]
          rw [pow_mul]
          ring
        rw [hexp]

theorem powMod_lt {p : ℕ} (hp : 0 < p) : ∀ f a e, powMod f a e p < p := by
  intro f
  induction f with
  | zero => intro a e; exact Nat.mod_lt _ hp
  | succ f ih =>
    intro a e
    unfold powMod
    split
    · exact Nat.mod_lt _ hp
    · split
      · exact Nat.mod_lt _ hp
      · exact ih _ _

theorem curvePoly_lt {p : ℕ} (hp : 0 < p) (b x : ℕ) : curvePoly p b x < p := by
  unfold curvePoly
  have h1 : ((x : ℤ) ^ 3 - 3 * (x : ℤ) + (b : ℤ)) % (p : ℤ) < (p : ℤ) :=
    Int.emod_lt_of_pos _ (by exact_mod_cast hp)
  have h2 : (0 : ℤ) ≤ ((x : ℤ) ^ 3 - 3 * (x : ℤ) + (b : ℤ)) % (p : ℤ) :=
    Int.emod_nonneg _ (by exact_mod_cast hp.ne')
  omega

theorem modSqrt_of_square {p y s : ℕ} (hp : Nat.Prime p) (hp4 : p % 4 = 3)
    (hs : s < p) (hy : y < p) (hsq : y * y % p = s) :
    ∃ r, modSqrt p s = some r ∧ r < p ∧ (r = y ∨ r = p - y) := by
  haveI : Fact p.Prime := ⟨hp⟩
  have hp0 : 0 < p := hp.pos
  have hp3 : 3 ≤ p := by
    rcases Nat.lt_or_ge p 3 with h | h
    · interval_cases p <;> omega
    · exact h
  set e := (p + 1) / 4 with he
  set r := powMod (e + 1) s e p with hr
  have hre : r = s ^ e % p := powMod_eq hp0 (e + 1) s e (by omega)
  have hrlt : r < p := powMod_lt hp0 (e + 1) s e
  -- cast facts
  have hyC : (y : ZMod p) * (y : ZMod p) = (s : ZMod p) := by
    have := congrArg (fun n : ℕ => (n : ZMod p)) hsq
    simpa [ZMod.natCast_mod, Nat.cast_mul] using this
  have hrC : (r : ZMod p) = (s : ZMod p) ^ e := by
    rw [hre]
    simp [ZMod.natCast_mod, Nat.cast_pow]
  have h2e : 2 * e = (p + 1) / 2 := by omega
  have hsqC : (r : ZMod p) * (r : ZMod p) = (y : ZMod p) * (y : ZMod p) := by
    rw [hrC, ← hyC]
    by_cases hy0 : (y : ZMod p) = 0
    · rw [hy0]
      have he1 : 1 ≤ e := by omega
      rw [mul_zero, zero_pow (by omega : e ≠ 0), mul_zero]
    · have h1 : ((y : ZMod p) * (y : ZMod p)) ^ e * (((y : ZMod p) * y) ^ e)
          = (y : ZMod p) ^ (p + 1) := by
        rw [← pow_two, ← pow_mul, ← pow_two, ← pow_mul]
        congr 1
        omega
      have h2 : (y : ZMod p) ^ (p + 1)
          = (y : ZMod p) * (y : ZMod p) * ((y : ZMod p) ^ (p - 1)) := by
        rw [show p + 1 = 2 + (p - 1) by omega, pow_add, pow_two]
      rw [h1, h2, ZMod.pow_card_sub_one_eq_one hy0, mul_one]
  have hdisj : (r : ZMod p) = (y : ZMod p) ∨ (r : ZMod p) = -(y : ZMod p) :=
    mul_self_eq_mul_self_iff.mp hsqC
  have hcheck : r * r % p = s % p := by
    have hmod : r * r ≡ s [MOD p] := by
      rw [← ZMod.natCast_eq_natCast_iff]
      push_cast
      rw [hsqC, hyC]
    exact hmod
  refine ⟨r, ?_, hrlt, ?_⟩
  · unfold modSqrt
    rw [← he, ← hr, if_pos hcheck]
  · rcases hdisj with hd | hd
    · left
      have := congrArg ZMod.val hd
      rwa [ZMod.val_cast_of_lt hrlt, ZMod.val_cast_of_lt hy] at this
    · by_cases hy0 : y = 0
      · subst hy0
        left
        have : (r : ZMod p) = 0 := by simpa using hd
        have := congrArg ZMod.val this
        rwa [ZMod.val_cast_of_lt hrlt, ZMod.val_zero] at this
      · right
        have hcast : ((p - y : ℕ) : ZMod p) = -(y : ZMod p) := by
          rw [Nat.cast_sub (le_of_lt hy), ZMod.natCast_self, zero_sub]
        rw [← hcast] at hd
        have := congrArg ZMod.val hd
        rwa [ZMod.val_cast_of_lt hrlt,
          ZMod.val_cast_of_lt (by omega : p - y < p)] at this

theorem decompress_none_short {p b : ℕ} {c : List ℕ} (h : c.length ≠ 33) :
    decompressPoint p b c = none := by
  unfold decompressPoint
  rw [if_pos (Or.inl h)]

theorem decompress_none_head {p b : ℕ} {c : List ℕ}
    (h : c.headI ≠ 2 ∧ c.headI ≠ 3) :
    decompressPoint p b c = none := by
  unfold decompressPoint
  rw [if_pos (Or.inr h)]

theorem decompress_none_noPoint {p b : ℕ} {c : List ℕ}
    (h : ∀ y0, isOnCurve p b (beVal (c.drop 1)) y0 = false) :
    decompressPoint p b c = none := by
  unfold decompressPoint
  by_cases hc : c.length ≠ 33 ∨ (c.headI ≠ 2 ∧ c.headI ≠ 3)
  · rw [if_pos hc]
  · rw [if_neg hc]
    cases hms : modSqrt p (curvePoly p b (beVal (c.drop 1))) with
    | none => simp only [hms]
    | some y0 => simp only [hms, h, Bool.false_eq_true, if_false]

theorem decompress_compress {p b x y : ℕ} (hp : Nat.Prime p) (hp4 : p % 4 = 3)
    (hple : p ≤ 2 ^ 256) (hx : x < p) (hy : y < p)
    (hcurve : y * y % p = curvePoly p b x) :
    decompressPoint p b (compressPoint x y) = some (x, y) := by
  have hpodd : p % 2 = 1 := by omega
  have hx256 : x < 256 ^ 32 := by
    have h28 : (256 : ℕ) ^ 32 = 2 ^ 256 := by
      rw [show (256 : ℕ) = 2 ^ 8 by norm_num, ← pow_mul]
      norm_num
    omega
  have hxval : beVal (List.drop 1 (compressPoint x y)) = x := by
    show beVal (List.drop 1 ((if y % 2 = 0 then 2 else 3) :: bytesBE 32 x)) = x
    rw [List.drop_one, List.tail_cons, beVal_bytesBE, Nat.mod_eq_of_lt hx256]
  have hlen : (compressPoint x y).length = 33 := by
    show ((if y % 2 = 0 then 2 else 3) :: bytesBE 32 x).length = 33
    simp [bytesBE_length]
  have hhead : (compressPoint x y).headI = (if y % 2 = 0 then 2 else 3) := rfl
  have hheadp : (compressPoint x y).headI % 2 = y % 2 := by
    rw [hhead]
    by_cases h2 : y % 2 = 0 <;> simp [h2] <;> omega
  have hcond : ¬((compressPoint x y).length ≠ 33
      ∨ ((compressPoint x y).headI ≠ 2 ∧ (compressPoint x y).headI ≠ 3)) := by
    rw [hlen, hhead]
    by_cases h2 : y % 2 = 0 <;> simp [h2]
  obtain ⟨r, hrsome, hrlt, hror⟩ :=
    modSqrt_of_square hp hp4 (curvePoly_lt hp.pos b x) hy hcurve
  unfold decompressPoint
  rw [if_neg hcond]
  simp only [hxval, hrsome, hheadp]
  rcases hror with hr | hr
  · subst hr
    have hOn : isOnCurve p b x r = true := by
      simp [isOnCurve, hx, hy, hcurve]
    simp [hOn]
  · subst hr
    have hne : (p - y) % 2 ≠ y % 2 := by omega
    have hsub : p - (p - y) = y := by omega
    have hOn : isOnCurve p b x y = true := by
      simp [isOnCurve, hx, hy, hcurve]
    simp only [ne_eq, hne, not_false_eq_true, if_true, hsub, hOn,
      ite_true]

/-! # Claim theorems -/

/-- C3: after `Store` succeeds for entry `v`, the first `Retrieve` under
`v`'s ephemeral key returns `v` and deletes the entry, and a second
`Retrieve` of the same key returns NotFound (and, since a failed retrieve
does not change the map, so does every later one). -/
theorem store_collect_at_most_once (m m₁ : MemStore) (v : StoredReceipt)
    (h : msStore v m = .ok m₁) :
    ∃ m₂, msRetrieve v.ephemeralKey m₁ = .ok (v, m₂) ∧
      msRetrieve v.ephemeralKey m₂ = .error .notFound := by
  unfold msStore at h
  split at h
  · simp at h
  · rw [Except.ok.injEq] at h
    subst h
    exact ⟨msErase v.ephemeralKey m, msRetrieve_stored _ _ _,
      msRetrieve_erased _ _⟩

/-- Witness for C3 at a concrete store. -/
theorem store_collect_at_most_once_witness :
    ∃ m₂, msRetrieve sr0.ephemeralKey [(sr0.ephemeralKey, sr0)] = .ok (sr0, m₂) ∧
      msRetrieve sr0.ephemeralKey m₂ = .error .notFound :=
  store_collect_at_most_once [] [(sr0.ephemeralKey, sr0)] sr0 (by decide)

/-- C10: `Store` is rejected exactly when some stored entry (under any key)
already carries the submitted `ReceiptID`; a submit under an
already-occupied ephemeral key with a fresh id succeeds and silently
replaces the stored payload, after which collecting that key yields the new
entry once and NotFound afterwards — the earlier entry is gone for good. -/
theorem store_submit_replaces_same_key (m : MemStore) (v₁ v₂ : StoredReceipt)
    (m₁ : MemStore) :
    (msStore v₂ m = .error .duplicateID ↔
      m.any (fun e => decide (e.2.receiptID = v₂.receiptID)) = true) ∧
    (msStore v₁ m = .ok m₁ →
      v₂.ephemeralKey = v₁.ephemeralKey →
      m₁.any (fun e => decide (e.2.receiptID = v₂.receiptID)) = false →
      ∃ m₂, msStore v₂ m₁ = .ok m₂ ∧
        ∃ m₃, msRetrieve v₁.ephemeralKey m₂ = .ok (v₂, m₃) ∧
          msRetrieve v₁.ephemeralKey m₃ = .error .notFound) := by
  constructor
  · by_cases hdup : m.any (fun e => decide (e.2.receiptID = v₂.receiptID)) = true
    · simp [msStore, hdup]
    · simp [msStore, hdup]
  · intro _ hkey hdup
    refine ⟨(v₂.ephemeralKey, v₂) :: msErase v₂.ephemeralKey m₁, ?_, ?_⟩
    · unfold msStore
      rw [if_neg (by simp [hdup])]
    · rw [hkey]
      exact ⟨msErase v₁.ephemeralKey m₁, msRetrieve_stored _ _ _,
        msRetrieve_erased _ _⟩

/-- Witness for C10: duplicate-id test and an actual overwrite of `sr0` by
`sr1` under the shared key. -/
theorem store_submit_replaces_same_key_witness :
    (msStore sr1 [(sr0.ephemeralKey, sr0)] = .error .duplicateID ↔
      [(sr0.ephemeralKey, sr0)].any
        (fun e => decide (e.2.receiptID = sr1.receiptID)) = true) ∧
    (∃ m₂, msStore sr1 [(sr0.ephemeralKey, sr0)] = .ok m₂ ∧
      ∃ m₃, msRetrieve sr0.ephemeralKey m₂ = .ok (sr1, m₃) ∧
        msRetrieve sr0.ephemeralKey m₃ = .error .notFound) :=
  ⟨(store_submit_replaces_same_key [(sr0.ephemeralKey, sr0)] sr0 sr1
      [(sr0.ephemeralKey, sr0)]).1,
   (store_submit_replaces_same_key [] sr0 sr1 [(sr0.ephemeralKey, sr0)]).2
      (by decide) (by decide) (by decide)⟩

/-- C7: `calculateTotals` computes the total amount as the sum of the line
totals, each rate bucket's taxable base as `lineTotal / (1 + rate/100)`
summed over the lines of that rate, and each bucket's tax as
`base × rate/100`; on the spec's worked scenario it yields total 36.00,
10%-bucket base 15.00/1.10 with tax base × 0.10, and 20%-bucket base
17.50 with tax 3.50. -/
theorem calculateTotals_formula_and_scenario :
    (∀ items : List RItem,
      (calcTotals items).2 = sumLineTotals items ∧
      (calcTotals items).1.tax10Percent.taxableAmount = specTaxBase 10 items ∧
      (calcTotals items).1.tax10Percent.taxAmount
        = specTaxBase 10 items * (0.10 : ℚ) ∧
      (calcTotals items).1.tax20Percent.taxableAmount = specTaxBase 20 items ∧
      (calcTotals items).1.tax20Percent.taxAmount
        = specTaxBase 20 items * (0.20 : ℚ) ∧
      (calcTotals items).1.totalTax
        = specTaxBase 10 items * (0.10 : ℚ) + specTaxBase 20 items * (0.20 : ℚ)) ∧
    ((calcTotals demoItems).2 = 36 ∧
     (calcTotals demoItems).1.tax10Percent.taxableAmount = 15 / (1.10 : ℚ) ∧
     (calcTotals demoItems).1.tax10Percent.taxAmount
       = 15 / (1.10 : ℚ) * (0.10 : ℚ) ∧
     (calcTotals demoItems).1.tax20Percent.taxableAmount = (17.5 : ℚ) ∧
     (calcTotals demoItems).1.tax20Percent.taxAmount = (3.5 : ℚ)) := by
  constructor
  · intro items
    simp [calcTotals, calcLoop_eq]
  · refine ⟨?_, ?_, ?_, ?_, ?_⟩ <;>
      · simp [calcTotals, calcLoop, demoItems]
        norm_num

/-- C9: a successful encryption output is the 65-byte uncompressed
ephemeral public key (marker byte 0x04) followed by the 12-byte nonce
followed by the ciphertext-plus-16-byte-tag, so its length is
65 + 12 + plaintext + 16 (the AEAD seal's tag overhead and the drawn
nonce's size enter as hypotheses about the library collaborators). -/
theorem ecies_output_layout
    (gcmSeal : List ℕ → List ℕ → List ℕ → List ℕ)
    (hseal : ∀ k n d, (gcmSeal k n d).length = d.length + 16)
    (ephX ephY : ℕ) (nonce dk data : List ℕ) (hn : nonce.length = 12) :
    (marshalUncompressed ephX ephY).length = 65 ∧
    (marshalUncompressed ephX ephY).headI = 4 ∧
    (encryptAssemble gcmSeal ephX ephY nonce dk data).length
      = 65 + 12 + data.length + 16 ∧
    (encryptAssemble gcmSeal ephX ephY nonce dk data).take 65
      = marshalUncompressed ephX ephY ∧
    ((encryptAssemble gcmSeal ephX ephY nonce dk data).drop 65).take 12 = nonce ∧
    (encryptAssemble gcmSeal ephX ephY nonce dk data).drop 77
      = gcmSeal dk nonce data := by
  have hm : (marshalUncompressed ephX ephY).length = 65 := by
    simp [marshalUncompressed, bytesBE_length]
  refine ⟨hm, rfl, ?_, ?_, ?_, ?_⟩
  · simp only [encryptAssemble, List.length_append, hm, hseal, hn]
    omega
  · rw [encryptAssemble, List.append_assoc, List.take_left' hm]
  · rw [encryptAssemble, List.append_assoc, List.drop_left' hm,
      List.take_left' hn]
  · rw [encryptAssemble]
    have h77 : (marshalUncompressed ephX ephY ++ nonce).length = 77 := by
      simp [List.length_append, hm, hn]
    rw [List.drop_left' h77]

/-- Witness for C9 with a dummy AEAD that appends a 16-byte tag. -/
theorem ecies_output_layout_witness :
    (encryptAssemble (fun _ _ d => d ++ List.replicate 16 0) 0 0
      (List.replicate 12 0) [] [1, 2, 3]).length = 65 + 12 + 3 + 16 :=
  (ecies_output_layout (fun _ _ d => d ++ List.replicate 16 0)
    (fun k n d => by simp) 0 0 (List.replicate 12 0) [] [1, 2, 3]
    (by simp)).2.2.1

/-- C8: `AddItem` with a category and unit price matching an existing line
(the first such line) increments that line's quantity by the added quantity
and recomputes its total as unit price × new quantity; two adds of the same
category and price with quantities q1 and q2 leave one line with quantity
q1 + q2 and the unchanged unit price; adding the same category at a
different price appends a second, distinct line. -/
theorem addItem_merge_rule :
    (∀ (lookup : ℕ → Option KisimInfo) (st : CRState) (r : RReceipt)
        (pre post : List RItem) (line : RItem) (C : ℕ) (P : ℚ) (q : ℤ)
        (info : KisimInfo),
        st.currentReceipt = some r → lookup C = some info → 0 < P →
        r.items = pre ++ line :: post →
        (∀ i ∈ pre, ¬(i.kisimID = C ∧ i.unitPrice = P)) →
        line.kisimID = C → line.unitPrice = P →
        ∃ st', addItem lookup st C q P = .ok st' ∧
          st'.currentReceipt.map RReceipt.items
            = some (pre ++ ⟨line.kisimID, line.kisimName, line.unitPrice,
                line.quantity + q,
                line.unitPrice * ((line.quantity + q : ℤ) : ℚ),
                line.taxRate⟩ :: post)) ∧
    (∀ (lookup : ℕ → Option KisimInfo) (st : CRState) (r : RReceipt) (C : ℕ)
        (P : ℚ) (q : ℤ) (info : KisimInfo),
        st.currentReceipt = some r → lookup C = some info → 0 < P →
        (∀ i ∈ r.items, ¬(i.kisimID = C ∧ i.unitPrice = P)) →
        ∃ st', addItem lookup st C q P = .ok st' ∧
          st'.currentReceipt.map RReceipt.items
            = some (r.items
                ++ [⟨C, info.kname, P, q, P * (q : ℚ), info.taxRate⟩])) ∧
    (∀ (lookup : ℕ → Option KisimInfo) (st : CRState) (r : RReceipt) (C : ℕ)
        (P : ℚ) (q1 q2 : ℤ) (info : KisimInfo),
        st.currentReceipt = some r → lookup C = some info → 0 < P →
        (∀ i ∈ r.items, ¬(i.kisimID = C ∧ i.unitPrice = P)) →
        ∃ st' st'', addItem lookup st C q1 P = .ok st' ∧
          addItem lookup st' C q2 P = .ok st'' ∧
          st''.currentReceipt.map RReceipt.items
            = some (r.items
                ++ [⟨C, info.kname, P, q1 + q2, P * ((q1 + q2 : ℤ) : ℚ),
                     info.taxRate⟩])) ∧
    (∀ (lookup : ℕ → Option KisimInfo) (st : CRState) (r : RReceipt) (C : ℕ)
        (P P2 : ℚ) (q1 q2 : ℤ) (info : KisimInfo),
        st.currentReceipt = some r → lookup C = some info → 0 < P → 0 < P2 →
        P2 ≠ P →
        (∀ i ∈ r.items, i.kisimID ≠ C) →
        ∃ st' st'', addItem lookup st C q1 P = .ok st' ∧
          addItem lookup st' C q2 P2 = .ok st'' ∧
          st''.currentReceipt.map RReceipt.items
            = some (r.items
                ++ [⟨C, info.kname, P, q1, P * (q1 : ℚ), info.taxRate⟩,
                    ⟨C, info.kname, P2, q2, P2 * (q2 : ℚ), info.taxRate⟩])) := by
  refine ⟨?_, ?_, ?_, ?_⟩
  · intro lookup st r pre post line C P q info hr hlk hP hitems hpre hk hu
    refine ⟨_, addItem_ok lookup st r C P q info hr hlk hP, ?_⟩
    simp only [Option.map_some, Option.some.injEq]
    rw [hitems, mergeAdd_first_match pre post line C info P q hpre hk hu]
    rfl
  · intro lookup st r C P q info hr hlk hP hno
    refine ⟨_, addItem_ok lookup st r C P q info hr hlk hP, ?_⟩
    simp only [Option.map_some, Option.some.injEq]
    rw [mergeAdd_no_match r.items C info P q hno]
    rfl
  · intro lookup st r C P q1 q2 info hr hlk hP hno
    refine ⟨_, _, addItem_ok lookup st r C P q1 info hr hlk hP,
      addItem_ok lookup _ _ C P q2 info rfl hlk hP, ?_⟩
    simp only [Option.map_some, Option.some.injEq]
    rw [mergeAdd_no_match r.items C info P q1 hno]
    have := mergeAdd_first_match r.items []
      (⟨C, info.kname, P, q1, P * (q1 : ℚ), info.taxRate⟩ : RItem)
      C info P q2 hno rfl rfl
    simp only [List.append_nil] at this ⊢
    rw [this]
    rfl
  · intro lookup st r C P P2 q1 q2 info hr hlk hP hP2 hne hno
    refine ⟨_, _, addItem_ok lookup st r C P q1 info hr hlk hP,
      addItem_ok lookup _ _ C P2 q2 info rfl hlk hP2, ?_⟩
    simp only [Option.map_some, Option.some.injEq]
    rw [mergeAdd_no_match r.items C info P q1 (fun i hi h => hno i hi h.1)]
    rw [mergeAdd_no_match _ C info P2 q2 ?hno2]
    · rw [List.append_assoc]
      rfl
    case hno2 =>
      intro i hi
      rw [List.mem_append] at hi
      rcases hi with hi | hi
      · exact fun h => hno i hi h.1
      · rw [List.mem_singleton] at hi
        subst hi
        rintro ⟨-, h2⟩
        exact hne h2.symm

/-- Witness for C8 at a concrete register state: two same-price adds then
the two-price scenario. -/
theorem addItem_merge_rule_witness :
    (∃ st' st'', addItem (fun _ => some ⟨[75], 20, 1⟩) st0 3 2 5 = .ok st' ∧
      addItem (fun _ => some ⟨[75], 20, 1⟩) st' 3 4 5 = .ok st'' ∧
      st''.currentReceipt.map RReceipt.items
        = some ([] ++ [⟨3, [75], 5, 2 + 4, 5 * ((2 + 4 : ℤ) : ℚ), 20⟩])) ∧
    (∃ st' st'', addItem (fun _ => some ⟨[75], 20, 1⟩) st0 3 2 5 = .ok st' ∧
      addItem (fun _ => some ⟨[75], 20, 1⟩) st' 3 4 7 = .ok st'' ∧
      st''.currentReceipt.map RReceipt.items
        = some ([] ++ [⟨3, [75], 5, 2, 5 * (2 : ℚ), 20⟩,
                       ⟨3, [75], 7, 4, 7 * (4 : ℚ), 20⟩])) := by
  constructor
  · exact (addItem_merge_rule.2.2.1) (fun _ => some ⟨[75], 20, 1⟩) st0 emptyRR
      3 5 2 4 ⟨[75], 20, 1⟩ rfl rfl (by norm_num) (by simp [emptyRR])
  · exact (addItem_merge_rule.2.2.2) (fun _ => some ⟨[75], 20, 1⟩) st0 emptyRR
      3 5 7 2 4 ⟨[75], 20, 1⟩ rfl rfl (by norm_num) (by norm_num)
      (by norm_num) (by simp [emptyRR])

/-- C2 counterexample: issuing the open receipt with zero line items
returns the empty-receipt error but leaves the orchestrator's receipt in
place — `HasActiveReceipt` is still true, not the claimed NoReceipt. -/
theorem issue_empty_keeps_receipt_cex :
    (issueCurrentReceipt collabOK 0 [] st0).1 = .error .emptyReceipt ∧
    hasActiveReceipt (issueCurrentReceipt collabOK 0 [] st0).2 = true := by
  constructor
  · rfl
  · rfl

/-- C2 (amended): a failure at any pipeline step of `IssueCurrentReceipt`
returns an error identifying that step, but the in-progress receipt is
*not* discarded by the orchestrator — it stays active (`HasActiveReceipt`
remains true); in particular an empty receipt yields the empty-receipt
error with the state unchanged.  The discard to NoReceipt happens one
layer up: the HTTP handler's process-transaction flow cancels the current
receipt whenever the issue call fails. -/
theorem issue_failure_keeps_receipt_handler_cancels :
    (∀ (C : Collab) (now : ℤ) (key : List ℕ) (st : CRState) (r : RReceipt)
        (res : Except IssueErr RReceipt) (st' : CRState),
        issueCurrentReceipt C now key st = (res, st') →
        st.currentReceipt = some r →
        ∀ e, res = .error e → st'.currentReceipt.isSome = true) ∧
    (∀ (C : Collab) (now : ℤ) (key : List ℕ) (st : CRState) (r : RReceipt),
        st.currentReceipt = some r → r.items = [] →
        issueCurrentReceipt C now key st = (.error .emptyReceipt, st)) ∧
    (∀ (C : Collab) (now : ℤ) (key : List ℕ) (st : CRState)
        (res : Except IssueErr RReceipt) (st' : CRState),
        processTransaction C now key st = (res, st') →
        ∀ e, res = .error e → st'.currentReceipt = none) := by
  refine ⟨?_, ?_, ?_⟩
  · intro C now key st r res st' hi hr e he
    subst he
    unfold issueCurrentReceipt at hi
    split at hi
    · next heq => rw [heq] at hr; simp at hr
    · next r' heq =>
      rw [heq] at hr
      injection hr with hr'
      subst hr'
      split at hi
      · rw [Prod.mk.injEq] at hi
        rw [← hi.2, heq]
        rfl
      · simp only [] at hi
        split at hi
        · rw [Prod.mk.injEq] at hi
          rw [← hi.2]
          rfl
        · split at hi
          · rw [Prod.mk.injEq] at hi
            rw [← hi.2]
            rfl
          · split at hi
            · rw [Prod.mk.injEq] at hi
              rw [← hi.2]
              rfl
            · split at hi
              · rw [Prod.mk.injEq] at hi
                rw [← hi.2]
                rfl
              · split at hi
                · rw [Prod.mk.injEq] at hi
                  rw [← hi.2]
                  rfl
                · split at hi
                  · rw [Prod.mk.injEq] at hi
                    rw [← hi.2]
                    rfl
                  · rw [Prod.mk.injEq] at hi
                    exact absurd hi.1 (by simp)
  · intro C now key st r hr hempty
    unfold issueCurrentReceipt
    split
    · next heq => rw [heq] at hr; simp at hr
    · next r' heq =>
      rw [heq] at hr
      injection hr with hr'
      subst hr'
      rw [if_pos (by simp [hempty])]
  · intro C now key st res st' hp e he
    subst he
    unfold processTransaction at hp
    split at hp
    · next heq =>
      rw [Prod.mk.injEq] at hp
      rw [← hp.2]
      exact heq
    · next r' heq =>
      split at hp
      · next e₁ st₁ hissue =>
        rw [Prod.mk.injEq] at hp
        rw [← hp.2]
        rfl
      · next r₁ st₁ hissue =>
        rw [Prod.mk.injEq] at hp
        exact absurd hp.1 (by simp)

/-- Witness for C2 at the concrete empty-receipt state: the issue call
errors with the receipt still active, and the handler flow ends with no
active receipt. -/
theorem issue_failure_keeps_receipt_handler_cancels_witness :
    ((issueCurrentReceipt collabOK 0 [] st0).2.currentReceipt).isSome = true ∧
    issueCurrentReceipt collabOK 0 [] st0 = (.error .emptyReceipt, st0) ∧
    (processTransaction collabOK 0 [] st0).2.currentReceipt = none := by
  refine ⟨?_, ?_, ?_⟩
  · exact issue_failure_keeps_receipt_handler_cancels.1 collabOK 0 [] st0
      emptyRR (issueCurrentReceipt collabOK 0 [] st0).1
      (issueCurrentReceipt collabOK 0 [] st0).2 rfl rfl .emptyReceipt rfl
  · exact issue_failure_keeps_receipt_handler_cancels.2.1 collabOK 0 [] st0
      emptyRR rfl rfl
  · exact issue_failure_keeps_receipt_handler_cancels.2.2 collabOK 0 [] st0
      (processTransaction collabOK 0 [] st0).1
      (processTransaction collabOK 0 [] st0).2 rfl .emptyReceipt rfl

/-- C4: the assembler returns `binaryReceipt ++ signature` exactly when the
signature is 64 bytes and fails on every other length; consequently, when
the signer hands back a 63-byte signature during issuance, the pipeline
stops with the assemble error and the state produced before submission —
for *every* submit (and encrypt) collaborator, i.e. the store is never
reached. -/
theorem assemble_length_and_63byte_scenario :
    (∀ b s : List ℕ,
      (s.length = 64 → createSignedReceipt b s = some (b ++ s)) ∧
      (s.length ≠ 64 → createSignedReceipt b s = none)) ∧
    (∀ (C : Collab) (now : ℤ) (key : List ℕ) (st : CRState) (r : RReceipt),
      st.currentReceipt = some r → r.items ≠ [] →
      validateOk (stampReceipt st now r) = true →
      (∀ hsh : List ℕ, ∃ s, C.signHash hsh = some s ∧ s.length = 63) →
      (∃ bin, serializeReceipt (toCodec (stampReceipt st now r)) = .ok bin) →
      issueCurrentReceipt C now key st
        = (.error .assembleFailed,
           { st with currentReceipt := some (stampReceipt st now r),
                     receiptCounter := st.receiptCounter + 1 })) := by
  constructor
  · intro b s
    constructor
    · intro h
      unfold createSignedReceipt
      rw [if_pos (by rw [h]; rfl)]
    · intro h
      unfold createSignedReceipt
      rw [if_neg (by simpa [signatureSize] using h)]
  · intro C now key st r hr hne hval hsig hser
    obtain ⟨bin, hbin⟩ := hser
    obtain ⟨s63, hs63, hlen63⟩ := hsig (C.hashFn bin)
    unfold issueCurrentReceipt
    split
    · next heq => rw [heq] at hr; simp at hr
    · next r' heq =>
      rw [heq] at hr
      injection hr with hr'
      subst hr'
      rw [if_neg (by simpa [List.isEmpty_iff] using hne)]
      simp only []
      rw [if_neg (by simp [hval])]
      rw [hbin]
      simp only []
      rw [hs63]
      simp only []
      rw [show createSignedReceipt bin s63 = none by
        unfold createSignedReceipt
        rw [if_neg (by simp [hlen63, signatureSize])]]

/-- Witness for C4: the one-item register `st1` with the 63-byte signer
stops at assembly and keeps the stamped receipt; the assembler
accepts/rejects concrete 64- and 63-byte signatures. -/
theorem assemble_length_and_63byte_scenario_witness :
    (createSignedReceipt [7] (List.replicate 64 0)
        = some ([7] ++ List.replicate 64 0)) ∧
    (createSignedReceipt [7] (List.replicate 63 0) = none) ∧
    issueCurrentReceipt collabSig63 0 [] st1
      = (.error .assembleFailed,
         { st1 with currentReceipt := some (stampReceipt st1 0 rr1),
                    receiptCounter := st1.receiptCounter + 1 }) := by
  refine ⟨?_, ?_, ?_⟩
  · exact (assemble_length_and_63byte_scenario.1 [7] (List.replicate 64 0)).1
      (by simp)
  · exact (assemble_length_and_63byte_scenario.1 [7] (List.replicate 63 0)).2
      (by simp)
  · refine assemble_length_and_63byte_scenario.2 collabSig63 0 [] st1 rr1 rfl
      (by simp [rr1, emptyRR]) ?_ ?_ ?_
    · simp only [validateOk, stampReceipt, st1, rr1, emptyRR, storeInfo0,
        calcTotals, calcLoop]
      norm_num
    · intro hsh
      exact ⟨List.replicate 63 0, rfl, by simp⟩
    · exact exists_ok_of_isOk (by rfl)

/-- C1 counterexample: the receipt with fields `Z1`, `TX` + eight filler
characters + `1`, VKN `1` and serial `F1` is accepted by the encoder, but
decoding its encoding returns the decoder's zero-padded forms (`Z0001`,
ten-digit VKN, `F0001`), not the original receipt: the claimed round trip
fails for a receipt the encoder accepts. -/
theorem roundtrip_fails_on_Z1 :
    (serializeReceipt receiptZ1).isOk = true ∧
    ((serializeReceipt receiptZ1).toOption.bind
        fun bs => (deserializeReceipt bs).toOption) ≠ some receiptZ1 := by
  constructor
  · rfl
  · have hser : serializeReceipt receiptZ1
        = .ok (headerBytes (toU64 0) 1 1 1 [] [] (minorOf 0) [] 1
            ++ be2 0 ++ itemsBytes [] ++ taxBytes zeroTax) := rfl
    rw [hser]
    simp only [Except.toOption, Option.some_bind]
    rw [List.append_assoc, List.append_assoc]
    rw [deserialize_header _ (toU64_lt _) (by norm_num) (by norm_num)
      (by norm_num) (by rw [minorOf_zero]; norm_num) (by norm_num)
      (by norm_num) (by norm_num) (by norm_num)]
    have htax : readTax (taxBytes zeroTax) = some (zeroTax, []) := by
      have h5 : amountCanonB (zeroTax.tax10Percent.taxableAmount) = true :=
        amountCanon_zero
      have := readTax_taxBytes [] h5 amountCanon_zero amountCanon_zero
        amountCanon_zero amountCanon_zero
      simpa using this
    unfold decodeTail
    rw [read2_be2 _ (by norm_num)]
    simp only [rstep_some, except_bind_ok, itemsBytes, List.nil_append,
      readItems, htax, except_pure, Except.toOption]
    intro h
    have h2 := congrArg Receipt.zReportNumber (Option.some.inj h)
    revert h2
    decide

/-- C1 (amended): the encoder also accepts structured strings that are
not in the decoder's zero-padded shape (for example `Z1`), and those do
not round-trip; for every receipt in canonical form — `Z%04d`, `TX` +
the timestamp's 8-character date + `%04d`, `%010d` VKN, `F%04d`, a
timestamp in `[0, 2^63)`, strings shorter than 2^32 bytes, fewer than
2^16 items with machine fields in range, and every monetary amount a
whole number of minor units below 2^32 — decoding the encoding yields
the receipt exactly, timestamps to the second and amounts to the minor
unit. -/
theorem decode_encode_canonical (r : Receipt) (h : canonicalReceipt r = true) :
    ∃ bs, serializeReceipt r = .ok bs ∧ deserializeReceipt bs = .ok r :=
  deserialize_serialize_canonical r h

/-- C5 counterexample: the decoder accepts `d5extra`, which declares zero
items but carries one item record's worth of bytes (13) before a
well-formed tax record — so success does not require the declared item
count to match the item bytes actually present; surplus bytes are
silently ignored. -/
theorem decode_accepts_surplus_item_bytes :
    (deserializeReceipt d5ok).isOk = true ∧
    (deserializeReceipt d5extra).isOk = true ∧
    (deserializeReceipt d5extra).toOption.map Receipt.items = some [] := by
  exact ⟨rfl, rfl, rfl⟩

/-- C5 (amended): decoding succeeds only if the input starts with the
magic bytes, version 0x01 and a zero reserved byte, and every *declared*
item is backed by a full 13-byte record — a wrong magic, an unknown
version, a nonzero reserved byte, or an item-region shortfall each fail
with the error naming that check.  (Surplus bytes beyond the declared
items and the tax record are ignored, not rejected — see the
counterexample.) -/
theorem decode_validates_header_and_declared_items :
    (∀ (d : List ℕ) (r : Receipt), (∀ b ∈ d, b < 256) →
        deserializeReceipt d = .ok r → d.take 4 = [84, 82, 1, 0]) ∧
    (∀ (m1 m2 : ℕ) (rest : List ℕ), m1 < 256 → m2 < 256 →
        ¬(m1 = 84 ∧ m2 = 82) → 2 ≤ rest.length →
        deserializeReceipt (m1 :: m2 :: rest) = .error .badMagic) ∧
    (∀ (v : ℕ) (rest : List ℕ), v ≠ 1 → 1 ≤ rest.length →
        deserializeReceipt (84 :: 82 :: v :: rest) = .error .badVersion) ∧
    (∀ (b : ℕ) (rest : List ℕ), b ≠ 0 →
        deserializeReceipt (84 :: 82 :: 1 :: b :: rest) = .error .badReserved) ∧
    (∀ (ts z tx vkn tot ser c : ℕ) (name addr pay ib : List ℕ),
        ts < 2 ^ 64 → z < 2 ^ 32 → tx < 2 ^ 32 → vkn < 2 ^ 32 → tot < 2 ^ 32 →
        ser < 2 ^ 32 → name.length < 2 ^ 32 → addr.length < 2 ^ 32 →
        pay.length < 2 ^ 32 → c < 2 ^ 16 → ib.length < 13 * c →
        deserializeReceipt
            (headerBytes ts z tx vkn name addr tot pay ser ++ (be2 c ++ ib))
          = .error .itemFail) := by
  refine ⟨?_, ?_, ?_, ?_, ?_⟩
  · intro d r hb h
    rcases d with _ | ⟨b0, _ | ⟨b1, _ | ⟨b2, _ | ⟨b3, rest⟩⟩⟩⟩
    · rw [decode_short (by simp)] at h; simp at h
    · rw [decode_short (by simp)] at h; simp at h
    · rw [decode_short (by simp)] at h; simp at h
    · rw [decode_short (by simp)] at h; simp at h
    · have hb0 : b0 < 256 := hb b0 (by simp)
      have hb1 : b1 < 256 := hb b1 (by simp)
      by_cases hmag : b0 = 84 ∧ b1 = 82
      · obtain ⟨e0, e1⟩ := hmag
        subst e0; subst e1
        by_cases hver : b2 = 1
        · subst hver
          by_cases hres : b3 = 0
          · subst hres; rfl
          · rw [decode_badReserved rest hres] at h; simp at h
        · rw [decode_badVersion (b3 :: rest) hver (by simp)] at h
          simp at h
      · rw [decode_badMagic (b2 :: b3 :: rest) hb0 hb1 hmag (by simp)] at h
        simp at h
  · intro m1 m2 rest h1 h2 hm hlen
    exact decode_badMagic rest h1 h2 hm hlen
  · intro v rest hv hlen
    exact decode_badVersion rest hv hlen
  · intro b rest hres
    exact decode_badReserved rest hres
  · intro ts z tx vkn tot ser c name addr pay ib hts hz htx hv htot hser hn
      ha hp hc hib
    exact decode_itemShort hts hz htx hv htot hser hn ha hp hc hib

/-- Witness for C5: concrete bad-magic, bad-version, bad-reserved and
short-item-region inputs, and the take-4 consequence on `d5ok`. -/
theorem decode_validates_header_witness :
    d5ok.take 4 = [84, 82, 1, 0] ∧
    deserializeReceipt [85, 82, 0, 0] = .error .badMagic ∧
    deserializeReceipt [84, 82, 9, 0] = .error .badVersion ∧
    deserializeReceipt [84, 82, 1, 7] = .error .badReserved ∧
    deserializeReceipt
        (headerBytes 0 0 0 0 [] [] 0 [] 0 ++ (be2 1 ++ []))
      = .error .itemFail := by
  refine ⟨?_, ?_, ?_, ?_, ?_⟩
  · exact decode_validates_header_and_declared_items.1 d5ok d5okReceipt
      (by decide) rfl
  · exact decode_validates_header_and_declared_items.2.1 85 82 [0, 0]
      (by norm_num) (by norm_num) (by norm_num) (by norm_num)
  · exact decode_validates_header_and_declared_items.2.2.1 9 [0]
      (by norm_num) (by norm_num)
  · exact decode_validates_header_and_declared_items.2.2.2.1 7 [] (by norm_num)
  · exact decode_validates_header_and_declared_items.2.2.2.2 0 0 0 0 0 0 1
      [] [] [] [] (by norm_num) (by norm_num) (by norm_num) (by norm_num)
      (by norm_num) (by norm_num) (by norm_num) (by norm_num) (by norm_num)
      (by norm_num) (by norm_num)

/-- Witness for C1 at the concrete canonical receipt. -/
theorem decode_encode_canonical_witness :
    ∃ bs, serializeReceipt receiptCanon = .ok bs ∧
      deserializeReceipt bs = .ok receiptCanon :=
  decode_encode_canonical receiptCanon (by
    have h1 : zCanonB (90 :: fmt4 1) = true := by decide
    have h2 : txCanonB ([84, 88] ++ fmtDateZ 0 ++ fmt4 1) 0 = true := by decide
    have h3 : vknCanonB (fmt10 123) = true := by decide
    have h4 : serialCanonB (70 :: fmt4 7) = true := by decide
    have ha : ∀ k : ℕ, k < 2 ^ 32 → amountCanonB (fromMinor k) = true :=
      fun k hk => amountCanon_fromMinor hk
    simp only [canonicalReceipt, receiptCanon, h1, h2, h3, h4,
      List.all_cons, List.all_nil, itemCanonB,
      ha 1050 (by norm_num), ha 2100 (by norm_num), ha 1 (by norm_num),
      ha 2 (by norm_num), ha 3 (by norm_num), ha 4 (by norm_num),
      ha 5 (by norm_num)]
    decide)

/-- C6: for every valid key pair on a short Weierstrass curve over a prime
`p ≡ 3 mod 4` with coordinates below `2^256` (the shape of the named curve
P-256 that the program fixes), decompressing the compressed form of the
public key returns the same point; compression always outputs exactly
33 bytes whose first byte is `0x02` when `y` is even and `0x03` when `y`
is odd; and decompression fails on a wrong-length input, on a leading
byte other than `0x02`/`0x03`, and on any `x` coordinate for which no
on-curve point exists. -/
theorem point_codec_inverse (p b x y : ℕ) (c : List ℕ)
    (hp : Nat.Prime p) (hp4 : p % 4 = 3) (hple : p ≤ 2 ^ 256)
    (hx : x < p) (hy : y < p) (hcurve : y * y % p = curvePoly p b x) :
    decompressPoint p b (compressPoint x y) = some (x, y)
    ∧ (compressPoint x y).length = 33
    ∧ (y % 2 = 0 → (compressPoint x y).headI = 2)
    ∧ (y % 2 ≠ 0 → (compressPoint x y).headI = 3)
    ∧ (c.length ≠ 33 → decompressPoint p b c = none)
    ∧ (c.headI ≠ 2 ∧ c.headI ≠ 3 → decompressPoint p b c = none)
    ∧ ((∀ y0, isOnCurve p b (beVal (c.drop 1)) y0 = false) →
        decompressPoint p b c = none) := by
  refine ⟨decompress_compress hp hp4 hple hx hy hcurve, ?_, ?_, ?_,
    fun h => decompress_none_short h, fun h => decompress_none_head h,
    fun h => decompress_none_noPoint h⟩
  · show ((if y % 2 = 0 then 2 else 3) :: bytesBE 32 x).length = 33
    simp [bytesBE_length]
  · intro h2
    show ((if y % 2 = 0 then 2 else 3) :: bytesBE 32 x).headI = 2
    simp [h2]
  · intro h2
    show ((if y % 2 = 0 then 2 else 3) :: bytesBE 32 x).headI = 3
    simp [h2]

/-- Witness for C6 on the toy curve `y^2 = x^3 - 3x + 2` over `F_7`
(`7 % 4 = 3`) at the point `(0, 3)`, with `[9, 3]` as the malformed
input: wrong length, bad leading byte, and `x = 3` has no point. -/
theorem point_codec_inverse_witness :
    decompressPoint 7 2 (compressPoint 0 3) = some (0, 3)
    ∧ (compressPoint 0 3).length = 33
    ∧ (compressPoint 0 3).headI = 3
    ∧ decompressPoint 7 2 [9, 3] = none := by
  have h := point_codec_inverse 7 2 0 3 [9, 3] (by norm_num) (by norm_num)
    (by norm_num) (by norm_num) (by norm_num) (by decide)
  exact ⟨h.1, h.2.1, h.2.2.2.1 (by decide), h.2.2.2.2.1 (by decide)⟩

end ReceiptWallet
